import Mathlib

/-!
Verification of the configurable stock scoring and decision-rule engine
(`app/core/scoring.py`).

The Python module is shallowly embedded.  Conventions used throughout:

* Python floats are modelled as rationals (`ℚ`); the float NaN, which only
  occurs as a data value, is a dedicated constructor of `PyVal`.
* Python dictionaries with string keys are modelled as association lists in
  insertion order; assignment updates the first matching key in place and
  otherwise appends, like a Python dict.
* Code that can raise returns `Except PyErr α`; code whose every path returns
  normally is a plain function.  The configuration document is modelled after
  JSON parsing: optional top-level keys are `Option` fields, nested objects
  are flattened into records whose fields carry the `.get` defaults used at
  their access sites, and values read through typed accesses (`ind['id']`,
  breakpoint pairs, grid cells) are given their expected shapes.
-/

deriving instance DecidableEq for Except

namespace StockScoring

/-- Python runtime values that flow through the scoring engine: numbers
(floats and ints collapsed to `ℚ`), strings, `None`, and the float NaN. -/
inductive PyVal where
  | num (q : ℚ)
  | str (s : String)
  | none
  | nan
deriving DecidableEq

/-- Python exceptions that the modelled code can raise. -/
inductive PyErr where
  | typeError
  | zeroDivisionError
  | indexError
  | attributeError
deriving DecidableEq

/-- A Python dict with string keys, as an association list in insertion order. -/
abbrev Dict (α : Type) := List (String × α)

/-- Lookup: `d[k]` / `k in d` combined; `some v` iff the key is present. -/
def dictGet? {α : Type} (d : Dict α) (k : String) : Option α :=
  match d with
  | [] => Option.none
  | (k', v) :: rest => if k' = k then some v else dictGet? rest k

/-- Lookup with default: Python `d.get(k, dflt)`. -/
def dictGetD {α : Type} (d : Dict α) (k : String) (dflt : α) : α :=
  (dictGet? d k).getD dflt

/-- Membership test: Python `k in d`. -/
def dictHas {α : Type} (d : Dict α) (k : String) : Bool :=
  (dictGet? d k).isSome

/-- Assignment `d[k] = v`: update in place if the key exists, else append. -/
def dictInsert {α : Type} (d : Dict α) (k : String) (v : α) : Dict α :=
  match d with
  | [] => [(k, v)]
  | (k', v') :: rest => if k' = k then (k, v) :: rest else (k', v') :: dictInsert rest k v

/-- Python `abs` on a rational. -/
def pyAbs (q : ℚ) : ℚ := if q < 0 then -q else q

/-- Python `x <= v` with `x` a number on the left: `False` when `v` is NaN,
`TypeError` when `v` is a string or `None`. -/
def leVal (x : ℚ) (v : PyVal) : Except PyErr Bool :=
  match v with
  | .num q => .ok (x ≤ q)
  | .nan => .ok false
  | _ => .error .typeError

/-- Python `v <= x` with a number on the right. -/
def valLe (v : PyVal) (x : ℚ) : Except PyErr Bool :=
  match v with
  | .num q => .ok (q ≤ x)
  | .nan => .ok false
  | _ => .error .typeError

/-- Python `v < x` with a number on the right. -/
def valLt (v : PyVal) (x : ℚ) : Except PyErr Bool :=
  match v with
  | .num q => .ok (q < x)
  | .nan => .ok false
  | _ => .error .typeError

/-- Python `v >= x` with a number on the right. -/
def valGe (v : PyVal) (x : ℚ) : Except PyErr Bool :=
  match v with
  | .num q => .ok (x ≤ q)
  | .nan => .ok false
  | _ => .error .typeError

/-- Python's stable ascending `sorted` on a list of breakpoint pairs, keyed by
the first component (`sorted(breakpoints, key=lambda x: x[0])`). -/
def pySortPairs (l : List (ℚ × ℚ)) : List (ℚ × ℚ) :=
  List.insertionSort (fun a b => a.1 ≤ b.1) l

/-- Python's `sorted` on a list of rationals. -/
def pySortQ (l : List ℚ) : List ℚ :=
  List.insertionSort (fun a b : ℚ => a ≤ b) l

/-- Extracts the numbers of a value list, `Option.none` if any entry is not a
plain number. -/
def toNums : List PyVal → Option (List ℚ)
  | [] => some []
  | .num q :: rest => (toNums rest).map (q :: ·)
  | _ => Option.none

/-- Python `sorted` on a raw value list.  Defined for lists of plain numbers;
a `None` or string element raises `TypeError` in Python 3.  A NaN element does
not raise in Python but its position after sorting is unspecified by any
behaviour this development relies on, so it is folded into the error case. -/
def pySortedNums (l : List PyVal) : Except PyErr (List ℚ) :=
  match toNums l with
  | some qs => .ok (pySortQ qs)
  | Option.none => .error .typeError

/-- The scoring module's `sorted(arr)[len(arr)//2]` idiom (used for peer
medians); raises `IndexError` on an empty list like Python. -/
def peerMedian (arr : List PyVal) : Except PyErr ℚ := do
  let qs ← pySortedNums arr
  match qs.get? (arr.length / 2) with
  | some m => .ok m
  | Option.none => .error .indexError

/-- Scan of the interpolation loop in `_linear_interpolate`: walks adjacent
pairs of the sorted breakpoints, returning the interpolated score of the first
bracketing pair, or `0` if the loop completes. -/
def interpLoop (q : ℚ) : List (ℚ × ℚ) → ℚ
  | p₁ :: p₂ :: rest =>
      if p₁.1 ≤ q ∧ q ≤ p₂.1 then
        if p₂.1 = p₁.1 then p₁.2
        else p₁.2 + (q - p₁.1) / (p₂.1 - p₁.1) * (p₂.2 - p₁.2)
      else interpLoop q (p₂ :: rest)
  | _ => 0

/-- The module's `_linear_interpolate(value, breakpoints)`.  An empty
breakpoint list short-circuits to `0` before `value` is ever compared; a NaN
value fails every comparison and falls through the loop to the final
`return 0`; a string or `None` value raises `TypeError` at the first
comparison. -/
def linInterp (value : PyVal) (breakpoints : List (ℚ × ℚ)) : Except PyErr ℚ :=
  if breakpoints = [] then .ok 0
  else
    let sp := pySortPairs breakpoints
    match value with
    | .num q =>
        .ok (if q ≤ (sp.headD (0, 0)).1 then (sp.headD (0, 0)).2
             else if (sp.getLastD (0, 0)).1 ≤ q then (sp.getLastD (0, 0)).2
             else interpLoop q sp)
    | .nan => .ok 0
    | _ => .error .typeError

/-- The filter `[x for x in sample_array if x is not None and not math.isnan(x)]`
of `_percentile_rank`; `math.isnan` raises `TypeError` on a string. -/
def validSamples : List PyVal → Except PyErr (List ℚ)
  | [] => .ok []
  | .none :: rest => validSamples rest
  | .nan :: rest => validSamples rest
  | .num q :: rest => (validSamples rest).map (q :: ·)
  | .str _ :: _ => .error .typeError

/-- Index of the first occurrence of `v`, Python `list.index` for an element
known to be present (`0` when absent; the call sites always find `v`). -/
def indexOfQ (v : ℚ) : List ℚ → ℕ
  | [] => 0
  | a :: rest => if a = v then 0 else indexOfQ v rest + 1

/-- The module's `_percentile_rank(value, sample_array)`: default 50 on an
empty or all-invalid sample, otherwise append the value, sort, and return
`index_of_first_occurrence / (n - 1) * 100`.  Appending a non-number to the
nonempty filtered float list makes the subsequent sort raise `TypeError`
(a NaN value cannot reach here: callers filter NaN raw values out first, and
NaN is folded into the error case as for `pySortedNums`). -/
def percentileRank (value : PyVal) (sampleArray : List PyVal) : Except PyErr ℚ :=
  if sampleArray = [] then .ok 50
  else do
    let valid ← validSamples sampleArray
    if valid = [] then pure 50
    else
      match value with
      | .num v =>
          let arr := pySortQ (valid ++ [v])
          pure (((indexOfQ v arr : ℕ) : ℚ) / (((arr.length - 1 : ℕ) : ℕ) : ℚ) * 100)
      | _ => .error .typeError

/-- The module's `_safe_divide(numerator, denominator, default)`: the default
for a zero denominator (checked before the numerator is touched), otherwise
the quotient; a non-numeric numerator raises `TypeError`.  A NaN numerator is
unreachable at the one call site (raw NaN values are filtered earlier) and is
folded into the error case. -/
def safeDivide (numerator : PyVal) (denominator : ℚ) (dflt : ℚ) : Except PyErr ℚ :=
  if denominator = 0 then .ok dflt
  else
    match numerator with
    | .num q => .ok (q / denominator)
    | _ => .error .typeError

/-- Whether `sep` is a prefix of `l`. -/
def isPrefixChars : List Char → List Char → Bool
  | [], _ => true
  | _ :: _, [] => false
  | c :: cs, d :: ds => c = d && isPrefixChars cs ds

/-- Fueled worker for `splitOnChars`; each step consumes at least one
character, so any fuel of at least the list length gives the split (the
fuel-exhausted arm is unreachable from `splitOnChars`). -/
def splitOnCharsF (sep : List Char) : ℕ → List Char → List (List Char)
  | _, [] => [[]]
  | 0, l => [l]
  | fuel + 1, c :: rest =>
      if sep ≠ [] ∧ isPrefixChars sep (c :: rest) = true then
        [] :: splitOnCharsF sep fuel (rest.drop (sep.length - 1))
      else
        match splitOnCharsF sep fuel rest with
        | g :: gs => (c :: g) :: gs
        | [] => [[c]]

/-- Python `s.split(sep)` for a nonempty separator, over character lists:
the groups between consecutive occurrences of `sep`, empty groups included. -/
def splitOnChars (sep l : List Char) : List (List Char) :=
  splitOnCharsF sep l.length l

/-- Python `sep in s`: the separator occurs iff splitting produces at least
two groups. -/
def hasSub (l sep : List Char) : Bool :=
  2 ≤ (splitOnChars sep l).length

/-- Python `s.strip()` over character lists. -/
def trimChars (cs : List Char) : List Char :=
  ((cs.dropWhile Char.isWhitespace).reverse.dropWhile Char.isWhitespace).reverse

/-- Accumulator for `wsSplit`. -/
def wsSplitAux : List Char → List Char → List (List Char)
  | [], acc => if acc = [] then [] else [acc.reverse]
  | c :: rest, acc =>
      if c.isWhitespace then
        if acc = [] then wsSplitAux rest []
        else acc.reverse :: wsSplitAux rest []
      else wsSplitAux rest (c :: acc)

/-- Python `s.split()` (no argument): split on whitespace runs, dropping
empty groups. -/
def wsSplit (cs : List Char) : List (List Char) :=
  wsSplitAux cs []

/-- Digit-string accumulator for `parseFloatChars`. -/
def digitsValAux : List Char → ℕ → Option ℕ
  | [], acc => some acc
  | c :: rest, acc =>
      if c.isDigit then digitsValAux rest (acc * 10 + (c.toNat - 48))
      else Option.none

/-- Python `float(s)` restricted to optionally signed plain decimal literals,
the only numeric shape the modelled trigger strings contain (exponent forms,
`inf` and `nan` are folded into the `ValueError` case). -/
def parseFloatChars (cs0 : List Char) : Option ℚ :=
  let cs := trimChars cs0
  let neg : Bool := match cs with | '-' :: _ => true | _ => false
  let cs1 : List Char :=
    match cs with
    | '-' :: rest => rest
    | '+' :: rest => rest
    | _ => cs
  match splitOnChars ['.'] cs1 with
  | [intPart] =>
      if intPart = [] then Option.none
      else (digitsValAux intPart 0).map (fun n => if neg then -(n : ℚ) else (n : ℚ))
  | [intPart, fracPart] =>
      if intPart = [] ∧ fracPart = [] then Option.none
      else do
        let ip ← if intPart = [] then some 0 else digitsValAux intPart 0
        let fp ← if fracPart = [] then some 0 else digitsValAux fracPart 0
        let mag : ℚ := (ip : ℚ) + (fp : ℚ) / ((10 : ℚ) ^ fracPart.length)
        some (if neg then -mag else mag)
  | _ => Option.none

/-- One cell of a `two_dim` grid: `{'x': [lo, hi], 'y': [lo, hi], 'score': s}`.
The range lists keep their raw list shape because the code length-checks them
(`len(x_range) == 2`) and skips malformed cells. -/
structure GridItem where
  x : List ℚ := []
  y : List ℚ := []
  score : ℚ := 0
deriving DecidableEq

/-- One sub-indicator of a `composite_avg` spec: `{'k': name, 'breakpoints': bps}`. -/
structure SubInd where
  k : Option String := Option.none
  breakpoints : List (ℚ × ℚ) := []
deriving DecidableEq

/-- The `scoring` object of an indicator, flattened over all variants; each
field carries the default used at its `.get` access site in the code. -/
structure ScoringCfg where
  type : Option String := Option.none
  breakpoints : List (ℚ × ℚ) := []
  peer : Option String := Option.none
  relation : String := ""
  mapping : List (ℚ × ℚ) := []
  x : Option String := Option.none
  y : Option String := Option.none
  grid : List GridItem := []
  default : ℚ := 60
  map : Dict ℚ := []
  sub : List SubInd := []
  targetBeta : ℚ × ℚ := (7/10, 11/10)
  targetVol : ℚ × ℚ := (0, 999)
deriving DecidableEq

/-- An indicator specification.  `id` and `weight` are accessed as
`ind['id']` / numeric `.get('weight', 0)` and are given their expected types;
`fieldHint` is `fetch.field_hint` (`Option.none` when the key is absent). -/
structure Indicator where
  id : String
  category : Option String := Option.none
  weight : ℚ := 0
  direction : String := "higher_is_better"
  fieldHint : Option (List String) := Option.none
  scoring : ScoringCfg := {}
deriving DecidableEq

/-- The per-indicator result dict built by `score_indicator`. -/
structure IndResult where
  id : String
  raw : PyVal
  score : ℚ
  weight : ℚ
  category : Option String
  warnings : List String
  peerContext : List (String × PyVal)
deriving DecidableEq

/-- Resolution of `ind.get('fetch', {}).get('field_hint', [indicator_id])`. -/
def fieldHints (ind : Indicator) : List String :=
  ind.fieldHint.getD [ind.id]

/-- The raw-value loop: the value of the first hint present in the inputs
(even if that value is `None`), else `None`. -/
def findRaw (hints : List String) (inputs : Dict PyVal) : PyVal :=
  match hints with
  | [] => .none
  | f :: rest =>
      match dictGet? inputs f with
      | some v => v
      | Option.none => findRaw rest inputs

/-- Python `str()` restricted to the value shapes this module feeds to
string-keyed maps; the decimal rendering of numbers is abstracted by the
rational `toString` (no modelled configuration keys a map by a number). -/
def pyStr : PyVal → String
  | .str s => s
  | .none => "None"
  | .nan => "nan"
  | .num q => toString q

/-- The branch-level result of a scoring dispatch: the score together with the
warnings and the `peer_context` entries that branch appended. -/
abbrev BranchOut := ℚ × List String × List (String × PyVal)

/-- The `peer_percentile` branch of `score_indicator`. -/
def scorePeerPercentile (indicatorId : String) (sc : ScoringCfg) (raw : PyVal)
    (peers : Dict (List PyVal)) : Except PyErr BranchOut :=
  match dictGet? peers (sc.peer.getD indicatorId) with
  | some sampleArray => do
      let s ← percentileRank raw sampleArray
      let med ← if sampleArray = [] then pure PyVal.none
                else do
                  let m ← peerMedian sampleArray
                  pure (PyVal.num m)
      pure (s, [], [("peer_median", med)])
  | Option.none => pure (60, ["Peer data not available for " ++ sc.peer.getD indicatorId], [])

/-- The `relative_to_peer` branch: `'median_peer_' in relation` is decided by
splitting on the marker, and the peer key is the part after its last
occurrence (`relation.split('median_peer_')[-1]`). -/
def scoreRelToPeer (sc : ScoringCfg) (raw : PyVal)
    (peers : Dict (List PyVal)) : Except PyErr BranchOut :=
  if 1 < (splitOnChars "median_peer_".data sc.relation.data).length then
    match dictGet? peers
        (String.mk ((splitOnChars "median_peer_".data sc.relation.data).getLastD [])) with
    | some arr => do
        let m ← peerMedian arr
        let ratioValue ← safeDivide raw m 1
        let s ← linInterp (.num ratioValue) sc.mapping
        pure (s, [], [("peer_median", .num m)])
    | Option.none =>
        pure (60, ["Peer median not available for "
          ++ String.mk ((splitOnChars "median_peer_".data sc.relation.data).getLastD [])], [])
  else pure (60, ["Unsupported relation: " ++ sc.relation], [])

/-- One grid-cell test of the `two_dim` branch, with Python's left-to-right
short-circuit: length checks guard the comparisons, so a malformed cell is
skipped without touching the point. -/
def cellCheck (g : GridItem) (xv yv : PyVal) : Except PyErr Bool :=
  if g.x.length = 2 then do
    let b1 ← leVal (g.x.getD 0 0) xv
    if b1 then do
      let b2 ← valLe xv (g.x.getD 1 0)
      if b2 then
        if g.y.length = 2 then do
          let b3 ← leVal (g.y.getD 0 0) yv
          if b3 then valLe yv (g.y.getD 1 0)
          else pure false
        else pure false
      else pure false
    else pure false
  else pure false

/-- Coordinate lookup `inputs.get(field)` for the two-dimensional branches:
a missing field name (`scoring.get('x')` returned `None`), a missing key and
an explicit `None` value all give `None`. -/
def coordVal (inputs : Dict PyVal) : Option String → PyVal
  | some f => dictGetD inputs f .none
  | Option.none => .none

/-- The `two_dim` branch: starting from the configured default, fold max over
the scores of the cells containing the point.  `inputs.get` of a missing or
`None`-valued coordinate gives `None` and short-circuits to the default with
a warning. -/
def scoreTwoDim (sc : ScoringCfg) (inputs : Dict PyVal) : Except PyErr BranchOut :=
  if coordVal inputs sc.x = .none ∨ coordVal inputs sc.y = .none then
    pure (sc.default, ["Missing x or y value for two_dim scoring"], [])
  else do
    let s ← sc.grid.foldlM
      (fun acc g => do
        let b ← cellCheck g (coordVal inputs sc.x) (coordVal inputs sc.y)
        pure (if b then max acc g.score else acc))
      sc.default
    pure (s, [], [])

/-- The `composite_avg` branch: mean of the sub-scores, a missing sub-key
contributing score 0 plus a warning.  A `sub` entry without a `'k'` key looks
up `None` in the inputs, which is never present under string keys. -/
def scoreCompositeAvg (sc : ScoringCfg) (inputs : Dict PyVal) : Except PyErr BranchOut := do
  let (scores, warns) ← sc.sub.foldlM
    (fun (acc : List ℚ × List String) subInd => do
      match subInd.k with
      | some k =>
          match dictGet? inputs k with
          | some v => do
              let s ← linInterp v subInd.breakpoints
              pure (acc.1 ++ [s], acc.2)
          | Option.none => pure (acc.1 ++ [0], acc.2 ++ ["Missing sub-indicator " ++ k])
      | Option.none => pure (acc.1 ++ [0], acc.2 ++ ["Missing sub-indicator None"]))
    ([], [])
  pure (if scores = [] then 0 else scores.sum / (scores.length : ℚ), warns, [])

/-- One axis of the `two_dim_invert` branch: `max(0, 100 - |v - center| * 50)`.
For a NaN coordinate every arithmetic result is NaN and Python's
`max(0, nan)` keeps its first argument, so the axis score is 0. -/
def invertAxisX (v : PyVal) (target : ℚ × ℚ) : Except PyErr ℚ :=
  match v with
  | .num q => .ok (max 0 (100 - pyAbs (q - (target.1 + target.2) / 2) * 50))
  | .nan => .ok 0
  | _ => .error .typeError

/-- The y-axis of `two_dim_invert`: `max(0, 100 - y * 0.1)`; 0 for NaN as in
`invertAxisX`. -/
def invertAxisY (v : PyVal) : Except PyErr ℚ :=
  match v with
  | .num q => .ok (max 0 (100 - q * (1/10)))
  | .nan => .ok 0
  | _ => .error .typeError

/-- The `two_dim_invert` branch. -/
def scoreTwoDimInvert (sc : ScoringCfg) (inputs : Dict PyVal) : Except PyErr BranchOut :=
  if coordVal inputs sc.x = .none ∨ coordVal inputs sc.y = .none then
    pure (60, ["Missing x or y value for two_dim_invert scoring"], [])
  else do
    let xs ← invertAxisX (coordVal inputs sc.x) sc.targetBeta
    let ys ← invertAxisY (coordVal inputs sc.y)
    pure ((xs + ys) / 2, [], [])

/-- The scoring-type dispatch of `score_indicator`, in source order; the raw
value reaching here is neither `None` nor NaN. -/
def dispatchScore (indicatorId : String) (sc : ScoringCfg) (raw : PyVal)
    (inputs : Dict PyVal) (peers : Dict (List PyVal)) : Except PyErr BranchOut :=
  if sc.type = some "linear_thresholds" then do
    let s ← linInterp raw sc.breakpoints
    pure (s, [], [])
  else if sc.type = some "peer_percentile" then
    scorePeerPercentile indicatorId sc raw peers
  else if sc.type = some "relative_to_peer" then
    scoreRelToPeer sc raw peers
  else if sc.type = some "two_dim" then
    scoreTwoDim sc inputs
  else if sc.type = some "count_thresholds" then do
    let s ← linInterp raw sc.breakpoints
    pure (s, [], [])
  else if sc.type = some "policy_phase" then
    pure (dictGetD sc.map (pyStr raw) 0, [], [])
  else if sc.type = some "composite_avg" then
    scoreCompositeAvg sc inputs
  else if sc.type = some "stage" then
    pure (dictGetD sc.map (pyStr raw) 0, [], [])
  else if sc.type = some "categorical" then
    pure (dictGetD sc.map (pyStr raw) 0, [], [])
  else if sc.type = some "relative_index" then
    match dictGet? inputs "relative_return_pct" with
    | some v => do
        let s ← linInterp v sc.breakpoints
        pure (s, [], [])
    | Option.none => pure (60, [], [])
  else if sc.type = some "two_dim_invert" then
    scoreTwoDimInvert sc inputs
  else
    pure (60, ["Unknown scoring type: " ++ (sc.type.getD "None")], [])

/-- The module's `score_indicator(ind, inputs, peers, context)`: resolve the
raw value through the field hints; missing/`None`/NaN short-circuits to score
0 with a warning; otherwise dispatch on the scoring type, then invert for
`lower_is_better` and clamp to `[0, 100]`.  `context` is accepted and unused,
as in the source. -/
def scoreIndicator (ind : Indicator) (inputs : Dict PyVal) (peers : Dict (List PyVal))
    (_context : Dict PyVal) : Except PyErr IndResult :=
  if findRaw (fieldHints ind) inputs = .none ∨ findRaw (fieldHints ind) inputs = .nan then
    .ok { id := ind.id, raw := .none, score := 0, weight := ind.weight,
          category := ind.category,
          warnings := ["Missing or invalid value for " ++ ind.id], peerContext := [] }
  else
    (dispatchScore ind.id ind.scoring (findRaw (fieldHints ind) inputs) inputs peers).map
      (fun out =>
        let score1 := if ind.direction = "lower_is_better" then 100 - out.1 else out.1
        { id := ind.id, raw := findRaw (fieldHints ind) inputs,
          score := max 0 (min 100 score1), weight := ind.weight,
          category := ind.category, warnings := out.2.1, peerContext := out.2.2 })

/-- First-seen-order key extraction, modelling the insertion order of the
Python grouping dicts (`category_weights`, `category_indicators`). -/
def firstSeenKeys {α : Type} (key : α → Option String) (seen : List (Option String)) :
    List α → List (Option String)
  | [] => []
  | a :: rest =>
      if key a ∈ seen then firstSeenKeys key seen rest
      else key a :: firstSeenKeys key (key a :: seen) rest

/-- Categories of a breakdown in first-seen order. -/
def breakdownCats (breakdown : List IndResult) : List (Option String) :=
  firstSeenKeys IndResult.category [] breakdown

/-- The per-category weighted means of `aggregate_scores`; a category whose
member weights sum to 0 scores 0.  (The `if not indicators` guard of the
source is unreachable: every grouped category has at least one member.) -/
def categoryScorePairs (breakdown : List IndResult) : List (Option String × ℚ) :=
  (breakdownCats breakdown).map (fun c =>
    (c, if ((breakdown.filter (fun i => i.category = c)).map IndResult.weight).sum = 0 then 0
        else ((breakdown.filter (fun i => i.category = c)).map
                (fun i => i.score * i.weight)).sum
              / ((breakdown.filter (fun i => i.category = c)).map IndResult.weight).sum))

/-- Category weight lookup `weights.get(category, 0)`; a `None` category is
never a key of the string-keyed weights object. -/
def weightOfCat (weights : Dict ℚ) : Option String → ℚ
  | some s => dictGetD weights s 0
  | Option.none => 0

/-- The total of `aggregate_scores`: `Σ score * (categoryWeight / 100)`. -/
def totalScoreOf (weights : Dict ℚ) (catScores : List (Option String × ℚ)) : ℚ :=
  (catScores.map (fun p => p.2 * (weightOfCat weights p.1 / 100))).sum

/-- One rule of `decision_rules.score_to_rating`, with the `.get` defaults. -/
structure RatingRule where
  minScore : ℚ := 0
  rating : String := "REDUCE/WAIT"
  sizing : String := "underweight"
deriving DecidableEq

/-- One rule of `decision_rules.red_flags`. -/
structure RedFlagRule where
  id : Option String := Option.none
  cond : Option String := Option.none
  action : Option String := Option.none
deriving DecidableEq

/-- The configuration document after JSON parsing.  `weights` and
`indicators` are `Option` because the code reads them with `.get` defaults;
the `decision_rules` and `meta` sub-objects are flattened, each field
carrying its `.get` default. -/
structure Config where
  weights : Option (Dict ℚ) := Option.none
  indicators : Option (List Indicator) := Option.none
  scoreToRating : List RatingRule := []
  redFlags : List RedFlagRule := []
  buyTriggers : List String := []
  trimTriggers : List String := []
  metaStock : String := ""
  scoringVersion : String := ""
  normalized : Bool := false
deriving DecidableEq

/-- The `aggregate_scores(config, breakdown)` pair. -/
def aggregateScores (cfg : Config) (breakdown : List IndResult) :
    List (Option String × ℚ) × ℚ :=
  let cs := categoryScorePairs breakdown
  (cs, totalScoreOf (cfg.weights.getD []) cs)

/-- Category-score lookup with default, Python `category_scores.get(k, 0)`. -/
def catGetD (cs : List (Option String × ℚ)) (k : Option String) (dflt : ℚ) : ℚ :=
  match cs.find? (fun p => p.1 = k) with
  | some p => p.2
  | Option.none => dflt

/-- The trigger evaluator `_evaluate_trigger`.  Dispatch is by substring
tests in source order, so an earlier branch captures a trigger even when a
later construct also occurs in the string.  Every raised exception is caught
and yields `False`; `fuel` bounds the recursion depth, standing for Python's
recursion limit (a depth overflow is a caught `RecursionError`, hence also
`False`); any fuel of at least `trigger.length + 1` reproduces Python's
result for terminating evaluations, since each genuine recursion step
strictly shortens the trigger. -/
def evalTrigger : ℕ → String → List IndResult → List (Option String × ℚ) →
    Dict PyVal → List String → Bool
  | 0, _, _, _, _, _ => false
  | fuel + 1, trigger, breakdown, categoryScores, inputs, redFlags =>
    let tc := trigger.data
    if hasSub tc "score >=".data then
      let parts := splitOnChars " score >=".data tc
      let indicatorId := String.mk (trimChars (parts.headD []))
      match parts.get? 1 with
      | Option.none => false
      | some p1 =>
          match (wsSplit p1).head? with
          | Option.none => false
          | some tok =>
              match parseFloatChars tok with
              | Option.none => false
              | some threshold =>
                  match breakdown.find? (fun item => item.id = indicatorId) with
                  | some item => threshold ≤ item.score
                  | Option.none => false
    else if hasSub tc ">=".data && !hasSub tc "score".data then
      let parts := splitOnChars ">=".data tc
      let indicatorId := String.mk (trimChars (parts.headD []))
      match parts.get? 1 with
      | Option.none => false
      | some p1 =>
          match (wsSplit p1).head? with
          | Option.none => false
          | some tok =>
              match parseFloatChars tok with
              | Option.none => false
              | some threshold =>
                  match valGe (dictGetD inputs indicatorId (PyVal.num 0)) threshold with
                  | .ok b => b
                  | .error _ => false
    else if hasSub tc "no_red_flags".data then
      redFlags.isEmpty
    else if hasSub tc "core_fundamentals_weighted".data then
      75 ≤ catGetD categoryScores (some "core_fundamentals") 0
    else if hasSub tc "AND".data then
      (splitOnChars " AND ".data tc).all (fun cond =>
        evalTrigger fuel (String.mk (trimChars cond)) breakdown categoryScores inputs redFlags)
    else if hasSub tc "OR".data then
      (splitOnChars " OR ".data tc).any (fun cond =>
        evalTrigger fuel (String.mk (trimChars cond)) breakdown categoryScores inputs redFlags)
    else false

/-- The one-step rating downgrade repeated inline in `apply_decision_rules`. -/
def downgradeOneLevel (rating : String) : String :=
  if rating = "BUY" then "ACCUMULATE"
  else if rating = "ACCUMULATE" then "HOLD"
  else if rating = "HOLD" then "REDUCE/WAIT"
  else rating

/-- State threaded through red-flag evaluation: rating, sizing, red flags. -/
abbrev FlagState := String × String × List String

/-- Evaluation of a single red-flag rule against the current state, mirroring
the condition chain of `apply_decision_rules` (a rule whose id matches no
breakdown entry is skipped entirely). -/
def applyRedFlag (inputs : Dict PyVal) (breakdown : List IndResult)
    (st : FlagState) (rule : RedFlagRule) : Except PyErr FlagState :=
  match breakdown.find? (fun item => some item.id = rule.id) with
  | Option.none => .ok st
  | some indicator =>
    let raw := indicator.raw
    let idStr := rule.id.getD "None"
    if rule.cond = some "< 10.0" ∧ raw ≠ .none then do
      let b ← valLt raw 10
      if b then
        let flags := st.2.2 ++ [idStr ++ ": < 10.0"]
        if rule.action = some "DOWNGRADE_ONE_LEVEL" then
          pure (downgradeOneLevel st.1, st.2.1, flags)
        else if rule.action = some "IMMEDIATE_HOLD_REVIEW" then
          pure ("HOLD", "review_required", flags)
        else pure (st.1, st.2.1, flags)
      else pure st
    else if rule.cond = some "LCR < 100 or NSFR < 100" then do
      let lcr := dictGetD inputs "lcr" .none
      let nsfr := dictGetD inputs "nsfr" .none
      let b1 ← if lcr = .none then pure false else valLt lcr 100
      let b ← if b1 then pure true
              else if nsfr = .none then pure false else valLt nsfr 100
      if b then
        let flags := st.2.2 ++ [idStr ++ ": LCR < 100 or NSFR < 100"]
        if rule.action = some "DOWNGRADE_ONE_LEVEL" then
          pure (downgradeOneLevel st.1, st.2.1, flags)
        else pure (st.1, st.2.1, flags)
      else pure st
    else if rule.cond = some "drops_to_none" then
      if raw = .str "none" then
        let flags := st.2.2 ++ [idStr ++ ": drops_to_none"]
        if rule.action = some "DOWNGRADE_ONE_LEVEL" then
          pure (downgradeOneLevel st.1, st.2.1, flags)
        else pure (st.1, st.2.1, flags)
      else pure st
    else if rule.cond = some "true" then
      let flags := st.2.2 ++ [idStr ++ ": manual_trigger"]
      if rule.action = some "IMMEDIATE_HOLD_REVIEW" then
        pure ("HOLD", "review_required", flags)
      else pure (st.1, st.2.1, flags)
    else .ok st

/-- The outcome of `apply_decision_rules`: rating, sizing, triggered
signals, red flags. -/
abbrev DecisionOut := String × String × List String × List String

/-- The module's `apply_decision_rules`: the rating ladder (last satisfied
rule wins), the red-flag chain, then the buy/trim trigger sweeps. -/
def applyDecisionRules (cfg : Config) (breakdown : List IndResult)
    (categoryScores : List (Option String × ℚ)) (total : ℚ) (inputs : Dict PyVal) :
    Except PyErr DecisionOut := do
  let base := cfg.scoreToRating.foldl
    (fun (rs : String × String) rule =>
      if rule.minScore ≤ total then (rule.rating, rule.sizing) else rs)
    ("REDUCE/WAIT", "underweight")
  let st ← cfg.redFlags.foldlM (applyRedFlag inputs breakdown) (base.1, base.2, [])
  let redFlags := st.2.2
  let triggered :=
    (cfg.buyTriggers.filter (fun t =>
      evalTrigger (t.length + 1) t breakdown categoryScores inputs redFlags)).map
        (fun t => "BUY: " ++ t)
    ++ (cfg.trimTriggers.filter (fun t =>
      evalTrigger (t.length + 1) t breakdown categoryScores inputs redFlags)).map
        (fun t => "TRIM: " ++ t)
  pure (st.1, st.2.1, triggered, redFlags)

/-- The `_generate_advice` lookup; its extra arguments are unused in the
source and omitted here. -/
def generateAdvice (rating : String) : String :=
  if rating = "BUY" then "核心稳健+稳定币催化明确，建议加仓或超配"
  else if rating = "ACCUMULATE" then "基本面良好，回撤分批吸纳"
  else if rating = "HOLD" then "持有观望，等待估值或催化改善"
  else if rating = "REDUCE/WAIT" then "弱于预期，减持或等待更优价位"
  else "建议谨慎评估"

/-- The merge of overrides into a copy of the inputs at the top of
`score_stock` (dict-assignment semantics, in override iteration order). -/
def mergeOverrides (inputs overrides : Dict PyVal) : Dict PyVal :=
  overrides.foldl (fun acc kv => dictInsert acc kv.1 kv.2) inputs

/-- The composite-alias resolution loop of `score_stock`: for each
`composite_avg` sub-key absent from the merged inputs, copy the value of the
first case-insensitively matching field hint that is present.  A `sub` entry
without a `'k'` key passes the `not in` test (no `None` key exists) and then
raises `AttributeError` at `sub_key.lower()` as soon as there is a hint to
compare against. -/
def resolveCompositeAliases (indicators : List Indicator) (merged : Dict PyVal) :
    Except PyErr (Dict PyVal) :=
  indicators.foldlM
    (fun m ind =>
      if ind.scoring.type = some "composite_avg" then
        ind.scoring.sub.foldlM
          (fun m' subInd =>
            match subInd.k with
            | some k =>
                if dictHas m' k then pure m'
                else
                  match (ind.fieldHint.getD []).find?
                      (fun h => h.toLower = k.toLower ∧ dictHas m' h) with
                  | some h => pure (dictInsert m' k (dictGetD m' h .none))
                  | Option.none => pure m'
            | Option.none =>
                if (ind.fieldHint.getD []) = [] then pure m'
                else .error .attributeError)
          m
      else pure m)
    merged

/-- Everything `score_stock` computes before the report is assembled. -/
structure CoreOut where
  warnings : List String
  breakdown : List IndResult
  categoryScores : List (Option String × ℚ)
  totalScore : ℚ
  rating : String
  sizing : String
  triggered : List String
  advice : String
deriving DecidableEq

/-- The computational body of `score_stock`, up to report assembly.  The
`peers = None` / `overrides = None` / `context = None` defaults of the source
are the empty dicts here, supplied by the caller. -/
def scoreStockCore (cfg : Config) (inputs : Dict PyVal) (peers : Dict (List PyVal))
    (overrides context : Dict PyVal) : Except PyErr CoreOut := do
  let merged0 := mergeOverrides inputs overrides
  let indicators := cfg.indicators.getD []
  let merged ← resolveCompositeAliases indicators merged0
  let breakdown ← indicators.mapM (fun ind => scoreIndicator ind merged peers context)
  let allWarnings := breakdown.foldl (fun acc r => acc ++ r.warnings) []
  let (categoryScores, total) := aggregateScores cfg breakdown
  let dec ← applyDecisionRules cfg breakdown categoryScores total merged
  pure { warnings := allWarnings, breakdown := breakdown,
         categoryScores := categoryScores, totalScore := total,
         rating := dec.1, sizing := dec.2.1, triggered := dec.2.2.1,
         advice := generateAdvice dec.1 }

/-- The report dict returned by `score_stock`.  As in the source, the
decision red-flag list is dropped from the report (only `triggered` and the
collected warnings surface). -/
structure Report where
  metaStock : String
  asOf : String
  scoringVersion : String
  warnings : List String
  breakdown : List IndResult
  categoryScores : List (Option String × ℚ)
  totalScore : ℚ
  rating : String
  sizing : String
  triggered : List String
  advice : String
deriving DecidableEq

/-- The module's `score_stock`.  `now` models the `datetime.now().isoformat()`
timestamp, which the source takes at report-assembly time (after all
computation, so an exception raised earlier never consults the clock). -/
def scoreStock (cfg : Config) (inputs : Dict PyVal) (peers : Dict (List PyVal))
    (overrides context : Dict PyVal) (now : String) : Except PyErr Report :=
  (scoreStockCore cfg inputs peers overrides context).map (fun c =>
    { metaStock := cfg.metaStock, asOf := now, scoringVersion := cfg.scoringVersion,
      warnings := c.warnings, breakdown := c.breakdown,
      categoryScores := c.categoryScores, totalScore := c.totalScore,
      rating := c.rating, sizing := c.sizing, triggered := c.triggered,
      advice := c.advice })

/-- Sum of the values of a weights dict. -/
def sumValues (d : Dict ℚ) : ℚ :=
  (d.map Prod.snd).sum

/-- Step 1 of `load_config`: if the category weights do not sum to 100 within
0.01, rescale each proportionally (raising `ZeroDivisionError` when the sum
is 0 and there is an entry to rescale) and flag the config as normalized. -/
def normalizeWeights (ws : Dict ℚ) : Except PyErr (Dict ℚ × Bool) :=
  if pyAbs (sumValues ws - 100) > 1/100 then
    if ws = [] then .ok (ws, true)
    else if sumValues ws = 0 then .error .zeroDivisionError
    else .ok (ws.map (fun p => (p.1, p.2 / sumValues ws * 100)), true)
  else .ok (ws, false)

/-- Categories of an indicator list in first-seen order, the insertion order
of the `category_weights` grouping dict of `load_config`. -/
def indCats (inds : List Indicator) : List (Option String) :=
  firstSeenKeys Indicator.category [] inds

/-- Total configured weight of one category's indicators (the per-category
sums `load_config` precomputes before rescaling). -/
def catWeightSum (inds : List Indicator) (c : Option String) : ℚ :=
  ((inds.filter (fun i => i.category = c)).map Indicator.weight).sum

/-- The per-indicator rescale of step 2 of `load_config`: an indicator whose
category's precomputed weight sum differs from the (step-1-normalized)
category weight by more than 0.5 is scaled by `categoryWeight / categorySum`. -/
def rescaleFun (ws : Dict ℚ) (inds : List Indicator) (i : Indicator) : Indicator :=
  if pyAbs (catWeightSum inds i.category - weightOfCat ws i.category) > 1/2 then
    { i with weight := i.weight / catWeightSum inds i.category * weightOfCat ws i.category }
  else i

/-- Step 2 of `load_config`: for every category whose indicator-weight sum
differs from its (step-1-normalized) category weight by more than 0.5,
rescale the member weights proportionally.  A category in that situation
whose sum is 0 divides by zero; the groups are disjoint, so the surviving
case is a single map over the indicators. -/
def rescaleIndicators (ws : Dict ℚ) (inds : List Indicator) :
    Except PyErr (List Indicator) :=
  if (indCats inds).any (fun c =>
      catWeightSum inds c = 0 ∧ pyAbs (catWeightSum inds c - weightOfCat ws c) > 1/2) then
    .error .zeroDivisionError
  else
    .ok (inds.map (rescaleFun ws inds))

/-- The weight-validation body of `load_config`, applied to the parsed
document (reading and JSON-parsing the file are outside the model; the
source's `except` clause logs and re-raises, so exceptions surface
unchanged).  A missing `weights` key yields a fresh empty dict whose
normalization is lost, so the key stays absent; the `indicators` list is
mutated in place when present. -/
def normalizeConfig (cfg : Config) : Except PyErr Config := do
  let wf ← normalizeWeights (cfg.weights.getD [])
  let inds' ← rescaleIndicators wf.1 (cfg.indicators.getD [])
  pure { cfg with
    weights := cfg.weights.map (fun _ => wf.1),
    indicators := cfg.indicators.map (fun _ => inds'),
    normalized := wf.2 }

/-- The smallest breakpoint x-coordinate (head of the sorted list). -/
def minBreakX (bps : List (ℚ × ℚ)) : ℚ := ((pySortPairs bps).headD (0, 0)).1

/-- The score paired with the smallest breakpoint x. -/
def firstBreakY (bps : List (ℚ × ℚ)) : ℚ := ((pySortPairs bps).headD (0, 0)).2

/-- The largest breakpoint x-coordinate (last of the sorted list). -/
def maxBreakX (bps : List (ℚ × ℚ)) : ℚ := ((pySortPairs bps).getLastD (0, 0)).1

/-- The score paired with the largest breakpoint x. -/
def lastBreakY (bps : List (ℚ × ℚ)) : ℚ := ((pySortPairs bps).getLastD (0, 0)).2

/-- Two breakpoints that are adjacent in their sorted order. -/
def adjacentSorted (bps : List (ℚ × ℚ)) (p₁ p₂ : ℚ × ℚ) : Prop :=
  ∃ n, (pySortPairs bps).get? n = some p₁ ∧ (pySortPairs bps).get? (n + 1) = some p₂

/-- Modelled from the spec's description of `peer_percentile`: insert the raw
value into the peer sample array, sort, and return `rank/(n-1)*100` where
`rank` is the index of the value's first occurrence after insertion. -/
def pctSpec (v : ℚ) (qs : List ℚ) : ℚ :=
  let arr := pySortQ (qs ++ [v])
  ((indexOfQ v arr : ℕ) : ℚ) / (((arr.length - 1 : ℕ) : ℕ) : ℚ) * 100

/-- Values that never raise when compared with or subtracted from a float. -/
def numOrNan : PyVal → Bool
  | .num _ => true
  | .nan => true
  | _ => false

/-- Plain numbers. -/
def isNum : PyVal → Bool
  | .num _ => true
  | _ => false

/-- The pure form of one `two_dim` grid-cell test at a numeric point. -/
def cellMatches (g : GridItem) (xq yq : ℚ) : Bool :=
  g.x.length = 2 ∧ g.x.getD 0 0 ≤ xq ∧ xq ≤ g.x.getD 1 0 ∧
  g.y.length = 2 ∧ g.y.getD 0 0 ≤ yq ∧ yq ≤ g.y.getD 1 0

/-- A report with its timestamp field blanked, for comparing two invocations
up to the wall clock. -/
def stripAsOf (r : Report) : Report := { r with asOf := "" }

/-- A concrete document whose category "A" already carries the full weight
and whose category "B" exists with a single indicator of weight 0. -/
def c5cfg : Config :=
  { weights := some [("A", 100)],
    indicators := some [{ id := "a", category := some "A", weight := 100 },
                        { id := "b", category := some "B", weight := 0 }] }

/-- A concrete breakdown with a scored "A" member and a weight-0 "B" member. -/
def c5bd : List IndResult :=
  [{ id := "a", raw := .num 1, score := 80, weight := 100, category := some "A",
     warnings := [], peerContext := [] },
   { id := "b", raw := .num 1, score := 50, weight := 0, category := some "B",
     warnings := [], peerContext := [] }]

/-- A concrete document whose weights sum to 50 (so step 1 rescales them to
100) and whose single indicator carries weight 30 (so step 2 rescales it). -/
def c7cfg : Config :=
  { weights := some [("A", 50)],
    indicators := some [{ id := "a", category := some "A", weight := 30 }] }

/-- The result of normalizing `c7cfg`: both weights rescaled to 100. -/
def c7cfg2 : Config :=
  { weights := some [("A", 100)],
    indicators := some [{ id := "a", category := some "A", weight := 100 }],
    normalized := true }

/-! ## Monad-level reduction lemmas for `Except` -/

@[simp] lemma exceptBind_ok {ε α β : Type} (a : α) (f : α → Except ε β) :
    (Except.ok a : Except ε α) >>= f = f a := rfl

@[simp] lemma exceptBind_error {ε α β : Type} (e : ε) (f : α → Except ε β) :
    (Except.error e : Except ε α) >>= f = Except.error e := rfl

@[simp] lemma exceptMap_ok {ε α β : Type} (f : α → β) (a : α) :
    Except.map f (Except.ok a : Except ε α) = Except.ok (f a) := rfl

@[simp] lemma exceptMap_error {ε α β : Type} (f : α → β) (e : ε) :
    Except.map f (Except.error e : Except ε α) = Except.error e := rfl

@[simp] lemma exceptPure_eq_ok {ε α : Type} (a : α) :
    (pure a : Except ε α) = Except.ok a := rfl

@[simp] lemma exceptPure_eq_ok' {ε α : Type} (a : α) :
    (Except.pure a : Except ε α) = Except.ok a := rfl

/-! ## Sorted-list facts about the breakpoint sort -/

lemma sorted_pySortPairs (l : List (ℚ × ℚ)) :
    (pySortPairs l).Sorted (fun a b : ℚ × ℚ => a.1 ≤ b.1) :=
  @List.sorted_insertionSort _ _ _ ⟨fun a b => le_total a.1 b.1⟩
    ⟨fun _ _ _ hab hbc => le_trans hab hbc⟩ l

lemma perm_pySortPairs (l : List (ℚ × ℚ)) : (pySortPairs l).Perm l :=
  List.perm_insertionSort _ l

lemma pySortPairs_ne_nil {l : List (ℚ × ℚ)} (h : l ≠ []) : pySortPairs l ≠ [] := by
  intro h0
  have hl := (perm_pySortPairs l).length_eq
  rw [h0] at hl
  simp only [List.length_nil] at hl
  exact h (List.length_eq_zero.mp hl.symm)

lemma getLastD_irrel {α : Type} (a : α) (t : List α) (d d' : α) :
    (a :: t).getLastD d = (a :: t).getLastD d' := by
  cases t with
  | nil => rfl
  | cons b t' => simp only [List.getLastD_cons]

lemma headD_le_of_sorted {l : List (ℚ × ℚ)}
    (hs : l.Sorted (fun a b : ℚ × ℚ => a.1 ≤ b.1)) {p : ℚ × ℚ} (hp : p ∈ l) :
    (l.headD (0, 0)).1 ≤ p.1 := by
  cases l with
  | nil => cases hp
  | cons a t =>
      simp only [List.headD_cons]
      rcases List.mem_cons.mp hp with h | h
      · subst h; exact le_refl _
      · exact (List.sorted_cons.mp hs).1 p h

lemma le_getLastD_of_sorted : ∀ {l : List (ℚ × ℚ)},
    l.Sorted (fun a b : ℚ × ℚ => a.1 ≤ b.1) → ∀ {p : ℚ × ℚ}, p ∈ l →
    p.1 ≤ (l.getLastD (0, 0)).1
  | [], _, p, hp => absurd hp (List.not_mem_nil p)
  | a :: t, hs, p, hp => by
      cases t with
      | nil =>
          simp only [List.mem_singleton] at hp
          subst hp
          exact le_refl _
      | cons b t' =>
          have hcons := List.sorted_cons.mp hs
          rw [List.getLastD_cons]
          rcases List.mem_cons.mp hp with h | h
          · have hmem := List.getLastD_mem_cons (b :: t') a
            rcases List.mem_cons.mp hmem with h2 | h2
            · rw [h, h2]
            · rw [h]
              exact hcons.1 _ h2
          · have ih := le_getLastD_of_sorted hcons.2 h
            rw [getLastD_irrel b t' a (0, 0)]
            exact ih

lemma interpLoop_bracket (q : ℚ) :
    ∀ (l : List (ℚ × ℚ)), l.Sorted (fun a b : ℚ × ℚ => a.1 ≤ b.1) →
      (l.headD (0, 0)).1 ≤ q → q < (l.getLastD (0, 0)).1 →
      ∃ p₁ p₂ n, l.get? n = some p₁ ∧ l.get? (n + 1) = some p₂ ∧ p₁.1 ≤ q ∧ q ≤ p₂.1 ∧
        interpLoop q l = (if p₂.1 = p₁.1 then p₁.2
                          else p₁.2 + (q - p₁.1) / (p₂.1 - p₁.1) * (p₂.2 - p₁.2))
  | [] => by
      intro _ h1 h2
      exfalso
      simp only [List.headD_nil, List.getLastD_nil] at h1 h2
      exact absurd (lt_of_le_of_lt h1 h2) (lt_irrefl _)
  | [p] => by
      intro _ h1 h2
      exfalso
      simp only [List.headD_cons, List.getLastD_cons, List.getLastD_nil] at h1 h2
      exact absurd (lt_of_le_of_lt h1 h2) (lt_irrefl _)
  | p₁ :: p₂ :: t => by
      intro hs h1 h2
      simp only [List.headD_cons] at h1
      by_cases hq : q ≤ p₂.1
      · refine ⟨p₁, p₂, 0, rfl, rfl, h1, hq, ?_⟩
        simp only [interpLoop]
        rw [if_pos ⟨h1, hq⟩]
      · push_neg at hq
        have hcons := List.sorted_cons.mp hs
        have h2' : q < ((p₂ :: t).getLastD (0, 0)).1 := by
          have : (p₁ :: p₂ :: t).getLastD (0, 0) = (p₂ :: t).getLastD (0, 0) := by
            rw [List.getLastD_cons, getLastD_irrel p₂ t p₁ (0, 0)]
          rw [this] at h2
          exact h2
        obtain ⟨a, b, n, hg1, hg2, hle1, hle2, heq⟩ :=
          interpLoop_bracket q (p₂ :: t) hcons.2 (by simpa using le_of_lt hq) h2'
        refine ⟨a, b, n + 1, by simpa using hg1, by simpa using hg2, hle1, hle2, ?_⟩
        simp only [interpLoop]
        rw [if_neg (by intro hc; exact absurd hc.2 (not_le.mpr hq))]
        exact heq

/-! ## C8: linear_thresholds / count_thresholds interpolation -/

/-- C8 counterexample: the claim's clamp rules are contradictory on a
degenerate breakpoint list where every x coincides.  For `[(0,1),(0,2)]` the
value `0` is at or above the largest x, yet `_linear_interpolate` returns the
FIRST score `1`, not the last score `2`: the below-smallest clamp is tested
first and captures the value. -/
theorem c8_counterexample :
    maxBreakX [(0, 1), (0, 2)] ≤ 0
    ∧ lastBreakY [(0, 1), (0, 2)] = 2
    ∧ linInterp (PyVal.num 0) [(0, 1), (0, 2)] = Except.ok 1 := by
  refine ⟨?_, ?_, ?_⟩ <;>
    norm_num [maxBreakX, lastBreakY, linInterp, pySortPairs, List.insertionSort,
      List.orderedInsert, interpLoop] <;> decide

/-- C8 (amended): for every nonempty breakpoint list, a value at or below the
smallest x yields the first score; a value at or above the largest x yields
the last score provided it is strictly above the smallest x (when all x
coincide the below-smallest clamp is tested first and wins); an interior
value yields the linear interpolation of the first bracketing pair of the
sorted list; and the spec's concrete cases for breakpoints
`[[0,0],[10,100]]` evaluate as stated (`-5 ↦ 0`, `15 ↦ 100`, `5 ↦ 50`). -/
theorem c8_linear_thresholds (bps : List (ℚ × ℚ)) (hne : bps ≠ []) (q : ℚ) :
    (∀ p ∈ bps, minBreakX bps ≤ p.1 ∧ p.1 ≤ maxBreakX bps)
    ∧ (q ≤ minBreakX bps → linInterp (PyVal.num q) bps = Except.ok (firstBreakY bps))
    ∧ (minBreakX bps < q → maxBreakX bps ≤ q →
        linInterp (PyVal.num q) bps = Except.ok (lastBreakY bps))
    ∧ (minBreakX bps < q → q < maxBreakX bps →
        ∃ p₁ p₂, adjacentSorted bps p₁ p₂ ∧ p₁.1 ≤ q ∧ q ≤ p₂.1 ∧
          linInterp (PyVal.num q) bps
            = Except.ok (if p₂.1 = p₁.1 then p₁.2
                         else p₁.2 + (q - p₁.1) / (p₂.1 - p₁.1) * (p₂.2 - p₁.2)))
    ∧ linInterp (PyVal.num (-5)) [(0, 0), (10, 100)] = Except.ok 0
    ∧ linInterp (PyVal.num 15) [(0, 0), (10, 100)] = Except.ok 100
    ∧ linInterp (PyVal.num 5) [(0, 0), (10, 100)] = Except.ok 50 := by
  refine ⟨?_, ?_, ?_, ?_, ?_, ?_, ?_⟩
  · intro p hp
    have hmem : p ∈ pySortPairs bps := ((perm_pySortPairs bps).mem_iff).mpr hp
    exact ⟨headD_le_of_sorted (sorted_pySortPairs bps) hmem,
           le_getLastD_of_sorted (sorted_pySortPairs bps) hmem⟩
  · intro h
    simp only [linInterp, hne, ite_false, if_neg]
    rw [if_pos (show q ≤ ((pySortPairs bps).headD (0, 0)).1 from h)]
    rfl
  · intro h1 h2
    simp only [linInterp, hne, ite_false, if_neg]
    rw [if_neg (show ¬ q ≤ ((pySortPairs bps).headD (0, 0)).1 from not_le.mpr h1),
        if_pos (show ((pySortPairs bps).getLastD (0, 0)).1 ≤ q from h2)]
    rfl
  · intro h1 h2
    obtain ⟨p₁, p₂, n, hg1, hg2, hle1, hle2, heq⟩ :=
      interpLoop_bracket q (pySortPairs bps) (sorted_pySortPairs bps)
        (le_of_lt (show ((pySortPairs bps).headD (0, 0)).1 < q from h1))
        (show q < ((pySortPairs bps).getLastD (0, 0)).1 from h2)
    refine ⟨p₁, p₂, ⟨n, hg1, hg2⟩, hle1, hle2, ?_⟩
    simp only [linInterp, hne, ite_false, if_neg]
    rw [if_neg (show ¬ q ≤ ((pySortPairs bps).headD (0, 0)).1 from not_le.mpr h1),
        if_neg (show ¬ ((pySortPairs bps).getLastD (0, 0)).1 ≤ q from not_le.mpr h2), heq]
  · norm_num [linInterp, pySortPairs, List.insertionSort, List.orderedInsert, interpLoop] <;>
      decide
  · norm_num [linInterp, pySortPairs, List.insertionSort, List.orderedInsert, interpLoop] <;>
      decide
  · norm_num [linInterp, pySortPairs, List.insertionSort, List.orderedInsert, interpLoop] <;>
      decide

/-- C8 witness: the amended clamp/interpolation theorem applied at the spec's
own example, breakpoints `[[0,0],[10,100]]` and value `5`. -/
theorem c8_witness :
    (([(0, 0), (10, 100)] : List (ℚ × ℚ)) ≠ [])
    ∧ ((∀ p ∈ ([(0, 0), (10, 100)] : List (ℚ × ℚ)),
          minBreakX [(0, 0), (10, 100)] ≤ p.1 ∧ p.1 ≤ maxBreakX [(0, 0), (10, 100)])
      ∧ ((5 : ℚ) ≤ minBreakX [(0, 0), (10, 100)] →
          linInterp (PyVal.num 5) [(0, 0), (10, 100)]
            = Except.ok (firstBreakY [(0, 0), (10, 100)]))
      ∧ (minBreakX [(0, 0), (10, 100)] < (5 : ℚ) → maxBreakX [(0, 0), (10, 100)] ≤ (5 : ℚ) →
          linInterp (PyVal.num 5) [(0, 0), (10, 100)]
            = Except.ok (lastBreakY [(0, 0), (10, 100)]))
      ∧ (minBreakX [(0, 0), (10, 100)] < (5 : ℚ) → (5 : ℚ) < maxBreakX [(0, 0), (10, 100)] →
          ∃ p₁ p₂, adjacentSorted [(0, 0), (10, 100)] p₁ p₂ ∧ p₁.1 ≤ 5 ∧ (5 : ℚ) ≤ p₂.1 ∧
            linInterp (PyVal.num 5) [(0, 0), (10, 100)]
              = Except.ok (if p₂.1 = p₁.1 then p₁.2
                           else p₁.2 + ((5 : ℚ) - p₁.1) / (p₂.1 - p₁.1) * (p₂.2 - p₁.2)))
      ∧ linInterp (PyVal.num (-5)) [(0, 0), (10, 100)] = Except.ok 0
      ∧ linInterp (PyVal.num 15) [(0, 0), (10, 100)] = Except.ok 100
      ∧ linInterp (PyVal.num 5) [(0, 0), (10, 100)] = Except.ok 50) :=
  ⟨by decide, c8_linear_thresholds [(0, 0), (10, 100)] (by decide) 5⟩

/-! ## C1: trigger strings of the form `A AND B` -/

/-- C1 counterexample: the trigger `"x >= 10 AND no_red_flags"` evaluates to
`true` with a NON-empty red-flag list (and `x = 15`): the claim's requirement
that every conjunct hold is violated, because the `>=`-comparison branch of
`_evaluate_trigger` captures the whole string before the `AND` branch is ever
consulted. -/
theorem c1_counterexample :
    evalTrigger 30 "x >= 10 AND no_red_flags" [] [] [("x", PyVal.num 15)]
        ["liquidity: manual_trigger"] = true
    ∧ (["liquidity: manual_trigger"] : List String) ≠ [] := by decide

/-- C1 (amended): a trigger containing `>=` but not the substring `score` is
captured by the plain-comparison branch before the `AND` branch is reached,
so `"x >= 10 AND no_red_flags"` evaluates to `mergedInputs['x'] >= 10` alone
— for every breakdown, category-score map and red-flag list, and every
numeric value of `x`; the `no_red_flags` conjunct is ignored.  (The recursive
conjunction only applies to triggers containing `AND` but none of the
earlier-matched substrings.) -/
theorem c1_trigger_and (bd : List IndResult) (cs : List (Option String × ℚ))
    (rfs : List String) (q : ℚ) :
    evalTrigger 30 "x >= 10 AND no_red_flags" bd cs [("x", PyVal.num q)] rfs
      = decide (10 ≤ q) := by
  rw [show (30 : ℕ) = 29 + 1 from rfl, evalTrigger]
  simp +decide [hasSub, splitOnChars, splitOnCharsF, isPrefixChars, trimChars, wsSplit,
    wsSplitAux, parseFloatChars, digitsValAux, dictGetD, dictGet?, valGe]

/-! ## C2: peer_percentile scoring -/

lemma validSamples_map_num (qs : List ℚ) :
    validSamples (qs.map PyVal.num) = Except.ok qs := by
  induction qs with
  | nil => rfl
  | cons q t ih => simp [validSamples, ih, Except.map]

/-- C2 counterexample: for peers `[1,2,3]` and raw value `2` the percentile
is `100/3` (the appended value lands at index 1 of the sorted array
`[1,2,2,3]`, and `1/3*100 = 33.3…`), not `50` as the claim's concrete case
states; the full `peer_percentile` scoring path returns the same score. -/
theorem c2_counterexample :
    percentileRank (PyVal.num 2) [PyVal.num 1, PyVal.num 2, PyVal.num 3]
        = Except.ok (100 / 3)
    ∧ ¬ ((100 : ℚ) / 3 = 50)
    ∧ (scoreIndicator
        { id := "pb", scoring := { type := some "peer_percentile", peer := some "pb" } }
        [("pb", PyVal.num 2)] [("pb", [PyVal.num 1, PyVal.num 2, PyVal.num 3])] []).map
        IndResult.score = Except.ok (100 / 3) := by
  refine ⟨?_, by norm_num, ?_⟩
  · norm_num +decide [percentileRank, validSamples, pySortQ, List.insertionSort,
      List.orderedInsert, indexOfQ, Except.map]
  · norm_num +decide [scoreIndicator, fieldHints, findRaw, dictGet?, dispatchScore,
      scorePeerPercentile, percentileRank, validSamples, pySortQ, List.insertionSort,
      List.orderedInsert, indexOfQ, peerMedian, pySortedNums, toNums, Except.map]

/-- C2 (amended): for a present peer key with a nonempty sample array of
plain numbers, the score is `rank/(n-1)*100` where the value is appended to
the samples, the list sorted, and `rank` is the index of the FIRST occurrence
of the value in the sorted `n`-element array; for peers `[1,2,3]` and raw
value `2` the percentile is `100/3`, not `50`. -/
theorem c2_peer_percentile (v : ℚ) (qs : List ℚ) (h : qs ≠ []) :
    percentileRank (PyVal.num v) (qs.map PyVal.num) = Except.ok (pctSpec v qs)
    ∧ percentileRank (PyVal.num 2) [PyVal.num 1, PyVal.num 2, PyVal.num 3]
        = Except.ok (100 / 3) := by
  constructor
  · have hmap : qs.map PyVal.num ≠ [] := by simpa using h
    simp [percentileRank, hmap, validSamples_map_num, h, pctSpec]
  · norm_num +decide [percentileRank, validSamples, pySortQ, List.insertionSort,
      List.orderedInsert, indexOfQ, Except.map]

/-- C2 witness: the amended percentile theorem applied at peers `[1,2,3]`
and value `2`. -/
theorem c2_witness :
    (([1, 2, 3] : List ℚ) ≠ [])
    ∧ (percentileRank (PyVal.num 2) (([1, 2, 3] : List ℚ).map PyVal.num)
         = Except.ok (pctSpec 2 [1, 2, 3])
      ∧ percentileRank (PyVal.num 2) [PyVal.num 1, PyVal.num 2, PyVal.num 3]
         = Except.ok (100 / 3)) :=
  ⟨by decide, c2_peer_percentile 2 [1, 2, 3] (by decide)⟩

/-! ## C9: the relative_to_peer median for even-length peer arrays -/

lemma toNums_map_num (qs : List ℚ) : toNums (qs.map PyVal.num) = some qs := by
  induction qs with
  | nil => rfl
  | cons q t ih => simp [toNums, ih]

lemma perm_pySortQ (l : List ℚ) : (pySortQ l).Perm l :=
  List.perm_insertionSort _ l

lemma length_pySortQ (l : List ℚ) : (pySortQ l).length = l.length :=
  (perm_pySortQ l).length_eq

lemma sorted_pySortQ (l : List ℚ) : (pySortQ l).Sorted (fun a b : ℚ => a ≤ b) :=
  @List.sorted_insertionSort _ _ _ ⟨fun a b => le_total a b⟩
    ⟨fun _ _ _ hab hbc => le_trans hab hbc⟩ l

/-- C9 counterexample: for the even-length peer array `[10,20,30,40]` the
divisor median taken by the code is `sorted[4//2] = 30`, the UPPER of the two
middle elements `20, 30` — not the lower as the claim's prose says; through
`relative_to_peer` with mapping `[[0,0],[2,100]]` and raw value `30` the
ratio is `30/30 = 1`, scoring `50` (a lower-median of `20` would give
`30/20 = 1.5`, scoring `75`). -/
theorem c9_counterexample :
    peerMedian [PyVal.num 10, PyVal.num 20, PyVal.num 30, PyVal.num 40] = Except.ok 30
    ∧ ¬ ((30 : ℚ) = 20)
    ∧ scoreRelToPeer
        { type := some "relative_to_peer", relation := "median_peer_pb",
          mapping := [(0, 0), (2, 100)] }
        (PyVal.num 30) [("pb", [PyVal.num 10, PyVal.num 20, PyVal.num 30, PyVal.num 40])]
        = Except.ok (50, [], [("peer_median", PyVal.num 30)]) := by
  refine ⟨by decide, by decide, ?_⟩
  have hm : peerMedian [PyVal.num 10, PyVal.num 20, PyVal.num 30, PyVal.num 40]
      = Except.ok 30 := by decide
  have hsplit : splitOnChars "median_peer_".data ("median_peer_pb" : String).data
      = ["".data, "pb".data] := by decide
  norm_num +decide [scoreRelToPeer, hsplit, hm, dictGet?, safeDivide, linInterp,
    pySortPairs, List.insertionSort, List.orderedInsert, interpLoop]

/-- C9 (amended): for a nonempty peer array of even length `n`, the median
used as the ratio divisor is the element at index `⌊n/2⌋` of the sorted
array, which is the UPPER of the two middle elements: the element one index
below it is no larger. -/
theorem c9_relative_to_peer_median (qs : List ℚ) (hne : qs ≠ [])
    (hev : qs.length % 2 = 0) :
    peerMedian (qs.map PyVal.num) = Except.ok ((pySortQ qs).getD (qs.length / 2) 0)
    ∧ (pySortQ qs).getD (qs.length / 2 - 1) 0 ≤ (pySortQ qs).getD (qs.length / 2) 0 := by
  have hpos : 0 < qs.length := List.length_pos.mpr hne
  have hlen2 : 2 ≤ qs.length := by omega
  have hlt : qs.length / 2 < (pySortQ qs).length := by
    rw [length_pySortQ]
    exact Nat.div_lt_self hpos (by norm_num)
  have hlt' : qs.length / 2 - 1 < (pySortQ qs).length := by
    rw [length_pySortQ]; omega
  constructor
  · simp only [peerMedian, pySortedNums, toNums_map_num, List.length_map, exceptBind_ok]
    rw [List.get?_eq_get hlt, List.getD_eq_get _ _ hlt]
  · rw [List.getD_eq_get _ _ hlt, List.getD_eq_get _ _ hlt']
    have hij : (⟨qs.length / 2 - 1, hlt'⟩ : Fin (pySortQ qs).length)
        ≤ ⟨qs.length / 2, hlt⟩ := by
      simp only [Fin.mk_le_mk]
      omega
    rcases lt_or_eq_of_le hij with hlt2 | heq2
    · exact (sorted_pySortQ qs).rel_get_of_lt hlt2
    · rw [show (⟨qs.length / 2 - 1, hlt'⟩ : Fin (pySortQ qs).length)
            = ⟨qs.length / 2, hlt⟩ from heq2]

/-- C9 witness: the amended median theorem applied at the even-length peer
array `[10,20,30,40]`. -/
theorem c9_witness :
    (([10, 20, 30, 40] : List ℚ) ≠ []) ∧ ([10, 20, 30, 40] : List ℚ).length % 2 = 0
    ∧ (peerMedian (([10, 20, 30, 40] : List ℚ).map PyVal.num)
        = Except.ok ((pySortQ [10, 20, 30, 40]).getD (([10, 20, 30, 40] : List ℚ).length / 2) 0)
      ∧ (pySortQ [10, 20, 30, 40]).getD (([10, 20, 30, 40] : List ℚ).length / 2 - 1) 0
          ≤ (pySortQ [10, 20, 30, 40]).getD (([10, 20, 30, 40] : List ℚ).length / 2) 0) :=
  ⟨by decide, by decide, c9_relative_to_peer_median [10, 20, 30, 40] (by decide) (by decide)⟩

/-! ## C10: two_dim grid scoring never drops below the default -/

lemma cellCheck_num (g : GridItem) (xq yq : ℚ) :
    cellCheck g (PyVal.num xq) (PyVal.num yq) = Except.ok (cellMatches g xq yq) := by
  simp only [cellCheck, leVal, valLe, exceptBind_ok, exceptPure_eq_ok]
  split_ifs <;> simp_all [cellMatches]

lemma gridFoldM_ok (xq yq : ℚ) (grid : List GridItem) (acc : ℚ) :
    (grid.foldlM
      (fun acc g =>
        (Except.ok (if cellMatches g xq yq then max acc g.score else acc) : Except PyErr ℚ))
      acc)
      = Except.ok (grid.foldl
          (fun acc g => if cellMatches g xq yq then max acc g.score else acc) acc) := by
  induction grid generalizing acc with
  | nil => rfl
  | cons g t ih =>
      simp only [List.foldlM_cons, List.foldl_cons, exceptBind_ok]
      exact ih _

lemma le_gridFold (xq yq : ℚ) (grid : List GridItem) (acc : ℚ) :
    acc ≤ grid.foldl
      (fun acc g => if cellMatches g xq yq then max acc g.score else acc) acc := by
  induction grid generalizing acc with
  | nil => simp
  | cons g t ih =>
      simp only [List.foldl_cons]
      by_cases h : cellMatches g xq yq
      · simp only [h, if_true]
        exact le_trans (le_max_left acc g.score) (ih (max acc g.score))
      · simp only [h, if_false]
        exact ih acc

lemma mem_le_gridFold (xq yq : ℚ) (grid : List GridItem) (acc : ℚ) (g : GridItem)
    (hm : g ∈ grid) (hp : cellMatches g xq yq = true) :
    g.score ≤ grid.foldl
      (fun acc g => if cellMatches g xq yq then max acc g.score else acc) acc := by
  induction grid generalizing acc with
  | nil => cases hm
  | cons h t ih =>
      simp only [List.foldl_cons]
      rcases List.mem_cons.mp hm with he | ht
      · subst he
        simp only [hp, if_true]
        exact le_trans (le_max_right acc g.score) (le_gridFold xq yq t (max acc g.score))
      · by_cases hh : cellMatches h xq yq <;> simp only [hh, if_true, if_false] <;>
          exact ih _ ht
  -- the `<;> exact` closes both branches with the inductive hypothesis

lemma gridFold_attained (xq yq : ℚ) (grid : List GridItem) (acc : ℚ) :
    grid.foldl (fun acc g => if cellMatches g xq yq then max acc g.score else acc) acc = acc
    ∨ ∃ g ∈ grid, cellMatches g xq yq = true
        ∧ grid.foldl (fun acc g => if cellMatches g xq yq then max acc g.score else acc) acc
            = g.score := by
  induction grid generalizing acc with
  | nil => exact Or.inl rfl
  | cons h t ih =>
      simp only [List.foldl_cons]
      by_cases hh : cellMatches h xq yq
      · simp only [hh, if_true]
        rcases ih (max acc h.score) with heq | ⟨g, hg, hgp, hgeq⟩
        · rcases max_choice acc h.score with hc | hc
          · exact Or.inl (by rw [heq, hc])
          · exact Or.inr ⟨h, List.mem_cons_self h t, hh, by rw [heq, hc]⟩
        · exact Or.inr ⟨g, List.mem_cons_of_mem h hg, hgp, hgeq⟩
      · simp only [hh, if_false]
        rcases ih acc with heq | ⟨g, hg, hgp, hgeq⟩
        · exact Or.inl heq
        · exact Or.inr ⟨g, List.mem_cons_of_mem h hg, hgp, hgeq⟩

/-- C10 counterexample: with both coordinate fields present but the x-value a
string, the grid comparison raises `TypeError` and `score_indicator` produces
no result at all, so "the result equals the maximum of the default and the
matching cell scores" fails for non-numeric present coordinates. -/
theorem c10_counterexample :
    scoreIndicator
      { id := "i", fieldHint := some ["a"],
        scoring := { type := some "two_dim", x := some "a", y := some "b",
                     grid := [{ x := [0, 1], y := [0, 1], score := 90 }] } }
      [("a", PyVal.str "growth"), ("b", PyVal.num 0)] [] []
      = Except.error PyErr.typeError := by decide

/-- C10 (amended): for every `two_dim` spec whose two coordinate fields are
present with NUMERIC values, the branch returns a score that is at least the
configured default, bounds the scores of all grid cells containing the point,
and is attained either by the default or by some containing cell — i.e. it is
the maximum of the default and the matching cell scores, so a matching cell
scoring below the default never lowers the result. -/
theorem c10_two_dim_max (sc : ScoringCfg) (inputs : Dict PyVal) (xf yf : String)
    (xq yq : ℚ) (hx : sc.x = some xf) (hy : sc.y = some yf)
    (hxv : dictGet? inputs xf = some (PyVal.num xq))
    (hyv : dictGet? inputs yf = some (PyVal.num yq)) :
    ∃ s, scoreTwoDim sc inputs = Except.ok (s, [], [])
      ∧ sc.default ≤ s
      ∧ (∀ g ∈ sc.grid, cellMatches g xq yq = true → g.score ≤ s)
      ∧ (s = sc.default ∨ ∃ g ∈ sc.grid, cellMatches g xq yq = true ∧ s = g.score) := by
  refine ⟨sc.grid.foldl
    (fun acc g => if cellMatches g xq yq then max acc g.score else acc) sc.default,
    ?_, le_gridFold xq yq sc.grid sc.default,
    fun g hm hp => mem_le_gridFold xq yq sc.grid sc.default g hm hp,
    gridFold_attained xq yq sc.grid sc.default⟩
  simp only [scoreTwoDim, hx, hy, coordVal, dictGetD, hxv, hyv, Option.getD_some]
  rw [if_neg (by simp)]
  simp only [cellCheck_num, exceptBind_ok, exceptPure_eq_ok]
  rw [gridFoldM_ok]
  rfl

/-- C10 witness: the amended theorem at a grid whose single matching cell
scores 10, below the default 60 — the branch still returns at least 60. -/
theorem c10_witness :
    ({ type := some "two_dim", x := some "a", y := some "b",
       grid := [{ x := [0, 2], y := [0, 2], score := 10 }] } : ScoringCfg).x = some "a"
    ∧ ({ type := some "two_dim", x := some "a", y := some "b",
         grid := [{ x := [0, 2], y := [0, 2], score := 10 }] } : ScoringCfg).y = some "b"
    ∧ dictGet? [("a", PyVal.num 1), ("b", PyVal.num 1)] "a" = some (PyVal.num 1)
    ∧ dictGet? [("a", PyVal.num 1), ("b", PyVal.num 1)] "b" = some (PyVal.num 1)
    ∧ ∃ s, scoreTwoDim
        { type := some "two_dim", x := some "a", y := some "b",
          grid := [{ x := [0, 2], y := [0, 2], score := 10 }] }
        [("a", PyVal.num 1), ("b", PyVal.num 1)] = Except.ok (s, [], [])
      ∧ ({ type := some "two_dim", x := some "a", y := some "b",
           grid := [{ x := [0, 2], y := [0, 2], score := 10 }] } : ScoringCfg).default ≤ s
      ∧ (∀ g ∈ ({ type := some "two_dim", x := some "a", y := some "b",
                  grid := [{ x := [0, 2], y := [0, 2], score := 10 }] } : ScoringCfg).grid,
            cellMatches g 1 1 = true → g.score ≤ s)
      ∧ (s = ({ type := some "two_dim", x := some "a", y := some "b",
                grid := [{ x := [0, 2], y := [0, 2], score := 10 }] } : ScoringCfg).default
          ∨ ∃ g ∈ ({ type := some "two_dim", x := some "a", y := some "b",
                     grid := [{ x := [0, 2], y := [0, 2], score := 10 }] } : ScoringCfg).grid,
              cellMatches g 1 1 = true ∧ s = g.score) :=
  ⟨rfl, rfl, by decide, by decide,
    c10_two_dim_max _ _ "a" "b" 1 1 rfl rfl (by decide) (by decide)⟩

/-! ## C3: score_indicator and its failure modes -/

lemma dictGet?_mem {α : Type} :
    ∀ (d : Dict α) (k : String) (v : α), dictGet? d k = some v → ∃ kv ∈ d, kv.2 = v
  | [], _, _, h => by simp [dictGet?] at h
  | (k', v') :: rest, k, v, h => by
      by_cases hk : k' = k
      · refine ⟨(k', v'), List.mem_cons_self _ _, ?_⟩
        simp [dictGet?, hk] at h
        exact h
      · simp only [dictGet?, hk, if_false] at h
        obtain ⟨kv, hm, hv⟩ := dictGet?_mem rest k v h
        exact ⟨kv, List.mem_cons_of_mem _ hm, hv⟩

lemma findRaw_cases :
    ∀ (hints : List String) (inputs : Dict PyVal),
      findRaw hints inputs = PyVal.none ∨ ∃ kv ∈ inputs, kv.2 = findRaw hints inputs
  | [], _ => Or.inl rfl
  | f :: rest, inputs => by
      simp only [findRaw]
      cases hf : dictGet? inputs f with
      | none => exact findRaw_cases rest inputs
      | some v => exact Or.inr (dictGet?_mem inputs f v hf)

lemma linInterp_ok (v : PyVal) (hv : numOrNan v = true) (bps : List (ℚ × ℚ)) :
    ∃ s, linInterp v bps = Except.ok s := by
  cases v with
  | num q =>
      by_cases h : bps = []
      · exact ⟨0, by simp [linInterp, h]⟩
      · simp only [linInterp, h, ite_false]
        exact ⟨_, rfl⟩
  | nan =>
      by_cases h : bps = []
      · exact ⟨0, by simp [linInterp, h]⟩
      · simp only [linInterp, h, ite_false]
        exact ⟨_, rfl⟩
  | str s => simp [numOrNan] at hv
  | none => simp [numOrNan] at hv

lemma validSamples_ok (l : List PyVal) (h : ∀ x ∈ l, isNum x = true) :
    ∃ qs, validSamples l = Except.ok qs ∧ qs.length = l.length := by
  induction l with
  | nil => exact ⟨[], rfl, rfl⟩
  | cons x t ih =>
      obtain ⟨qs, hqs, hlen⟩ := ih (fun y hy => h y (List.mem_cons_of_mem x hy))
      cases x with
      | num q =>
          exact ⟨q :: qs, by simp [validSamples, hqs, Except.map], by simp [hlen]⟩
      | str s => simpa [isNum] using h (.str s) (List.mem_cons_self _ _)
      | none => simpa [isNum] using h .none (List.mem_cons_self _ _)
      | nan => simpa [isNum] using h .nan (List.mem_cons_self _ _)

lemma percentileRank_ok (v : ℚ) (samples : List PyVal)
    (hs : ∀ x ∈ samples, isNum x = true) :
    ∃ s, percentileRank (PyVal.num v) samples = Except.ok s := by
  by_cases h0 : samples = []
  · exact ⟨50, by simp [percentileRank, h0]⟩
  · obtain ⟨qs, hqs, hlen⟩ := validSamples_ok samples hs
    by_cases hq : qs = []
    · exfalso
      apply h0
      rw [hq] at hlen
      exact (List.length_eq_zero.mp hlen.symm)
    · simp only [percentileRank, h0, ite_false, hqs, exceptBind_ok, hq, exceptPure_eq_ok]
      exact ⟨_, rfl⟩

lemma toNums_ok (l : List PyVal) (h : ∀ x ∈ l, isNum x = true) :
    ∃ qs, toNums l = some qs ∧ qs.length = l.length := by
  induction l with
  | nil => exact ⟨[], rfl, rfl⟩
  | cons x t ih =>
      obtain ⟨qs, hqs, hlen⟩ := ih (fun y hy => h y (List.mem_cons_of_mem x hy))
      cases x with
      | num q => exact ⟨q :: qs, by simp [toNums, hqs], by simp [hlen]⟩
      | str s => simpa [isNum] using h (.str s) (List.mem_cons_self _ _)
      | none => simpa [isNum] using h .none (List.mem_cons_self _ _)
      | nan => simpa [isNum] using h .nan (List.mem_cons_self _ _)

lemma peerMedian_ok (arr : List PyVal) (hne : arr ≠ [])
    (h : ∀ x ∈ arr, isNum x = true) :
    ∃ m, peerMedian arr = Except.ok m := by
  obtain ⟨qs, hqs, hlen⟩ := toNums_ok arr h
  have hlt : arr.length / 2 < (pySortQ qs).length := by
    rw [length_pySortQ, hlen]
    exact Nat.div_lt_self (List.length_pos.mpr hne) one_lt_two
  simp only [peerMedian, pySortedNums, hqs, exceptBind_ok, List.get?_eq_get hlt]
  exact ⟨_, rfl⟩

lemma safeDivide_ok (q : ℚ) (den dflt : ℚ) :
    ∃ s, safeDivide (PyVal.num q) den dflt = Except.ok s := by
  by_cases h : den = 0
  · exact ⟨dflt, by simp [safeDivide, h]⟩
  · exact ⟨q / den, by simp [safeDivide, h]⟩

lemma scorePeerPercentile_ok (indicatorId : String) (sc : ScoringCfg) (q : ℚ)
    (peers : Dict (List PyVal))
    (hp : ∀ kl ∈ peers, kl.2 ≠ [] ∧ ∀ x ∈ kl.2, isNum x = true) :
    ∃ out, scorePeerPercentile indicatorId sc (PyVal.num q) peers = Except.ok out := by
  unfold scorePeerPercentile
  cases harr : dictGet? peers (sc.peer.getD indicatorId) with
  | none => exact ⟨_, rfl⟩
  | some sampleArray =>
      obtain ⟨kv, hkv, hv⟩ := dictGet?_mem peers _ _ harr
      have hprops := hp kv hkv
      rw [hv] at hprops
      obtain ⟨s, hs⟩ := percentileRank_ok q sampleArray hprops.2
      obtain ⟨m, hm⟩ := peerMedian_ok sampleArray hprops.1 hprops.2
      simp only [hs, exceptBind_ok, hprops.1, ite_false, hm, exceptPure_eq_ok]
      exact ⟨_, rfl⟩

lemma scoreRelToPeer_ok (sc : ScoringCfg) (q : ℚ) (peers : Dict (List PyVal))
    (hp : ∀ kl ∈ peers, kl.2 ≠ [] ∧ ∀ x ∈ kl.2, isNum x = true) :
    ∃ out, scoreRelToPeer sc (PyVal.num q) peers = Except.ok out := by
  unfold scoreRelToPeer
  by_cases hparts :
      1 < (splitOnChars "median_peer_".data sc.relation.data).length
  · rw [if_pos hparts]
    cases harr : dictGet? peers
        (String.mk ((splitOnChars "median_peer_".data sc.relation.data).getLastD [])) with
    | none => exact ⟨_, rfl⟩
    | some arr =>
        obtain ⟨kv, hkv, hv⟩ := dictGet?_mem peers _ _ harr
        have hprops := hp kv hkv
        rw [hv] at hprops
        obtain ⟨m, hm⟩ := peerMedian_ok arr hprops.1 hprops.2
        obtain ⟨rv, hrv⟩ := safeDivide_ok q m 1
        obtain ⟨s, hsc⟩ := linInterp_ok (PyVal.num rv) rfl sc.mapping
        simp only [hm, exceptBind_ok, hrv, hsc, exceptPure_eq_ok]
        exact ⟨_, rfl⟩
  · rw [if_neg hparts]
    exact ⟨_, rfl⟩

lemma cellCheck_ok (g : GridItem) (xv yv : PyVal)
    (hx : numOrNan xv = true) (hy : numOrNan yv = true) :
    ∃ b, cellCheck g xv yv = Except.ok b := by
  have h1 : ∃ b, leVal (g.x.getD 0 0) xv = Except.ok b := by
    cases xv <;> first | exact ⟨_, rfl⟩ | simp [numOrNan] at hx
  have h2 : ∃ b, valLe xv (g.x.getD 1 0) = Except.ok b := by
    cases xv <;> first | exact ⟨_, rfl⟩ | simp [numOrNan] at hx
  have h3 : ∃ b, leVal (g.y.getD 0 0) yv = Except.ok b := by
    cases yv <;> first | exact ⟨_, rfl⟩ | simp [numOrNan] at hy
  have h4 : ∃ b, valLe yv (g.y.getD 1 0) = Except.ok b := by
    cases yv <;> first | exact ⟨_, rfl⟩ | simp [numOrNan] at hy
  obtain ⟨b1, h1⟩ := h1
  obtain ⟨b2, h2⟩ := h2
  obtain ⟨b3, h3⟩ := h3
  obtain ⟨b4, h4⟩ := h4
  unfold cellCheck
  simp only [h1, h2, h3, h4, exceptBind_ok, exceptPure_eq_ok]
  split_ifs <;> exact ⟨_, rfl⟩

lemma foldlM_ok_of_all {α β : Type} (f : β → α → Except PyErr β) (l : List α)
    (hf : ∀ b a, a ∈ l → ∃ b', f b a = Except.ok b') :
    ∀ b, ∃ r, l.foldlM f b = Except.ok r := by
  induction l with
  | nil => exact fun b => ⟨b, rfl⟩
  | cons a t ih =>
      intro b
      obtain ⟨b', hb'⟩ := hf b a (List.mem_cons_self _ _)
      obtain ⟨r, hr⟩ := ih (fun b a ha => hf b a (List.mem_cons_of_mem _ ha)) b'
      refine ⟨r, ?_⟩
      rw [List.foldlM_cons, hb']
      exact hr

lemma gridFoldM_isOk (xv yv : PyVal) (hx : numOrNan xv = true) (hy : numOrNan yv = true)
    (grid : List GridItem) (acc : ℚ) :
    ∃ s, (grid.foldlM
      (fun acc g => do
        let b ← cellCheck g xv yv
        pure (if b then max acc g.score else acc)) acc : Except PyErr ℚ)
      = Except.ok s := by
  apply foldlM_ok_of_all
  intro b g _
  obtain ⟨c, hc⟩ := cellCheck_ok g xv yv hx hy
  exact ⟨if c then max b g.score else b, by rw [hc]; rfl⟩

lemma coordVal_cases (inputs : Dict PyVal) (hin : ∀ kv ∈ inputs, numOrNan kv.2 = true)
    (o : Option String) :
    coordVal inputs o = PyVal.none ∨ numOrNan (coordVal inputs o) = true := by
  cases o with
  | none => exact Or.inl rfl
  | some f =>
      simp only [coordVal, dictGetD]
      cases hf : dictGet? inputs f with
      | none => exact Or.inl rfl
      | some v =>
          obtain ⟨kv, hm, hv⟩ := dictGet?_mem inputs f v hf
          exact Or.inr (by simpa [hv] using hin kv hm)

lemma scoreTwoDim_ok (sc : ScoringCfg) (inputs : Dict PyVal)
    (hin : ∀ kv ∈ inputs, numOrNan kv.2 = true) :
    ∃ out, scoreTwoDim sc inputs = Except.ok out := by
  unfold scoreTwoDim
  by_cases hmiss : coordVal inputs sc.x = PyVal.none ∨ coordVal inputs sc.y = PyVal.none
  · exact ⟨_, by rw [if_pos hmiss]; rfl⟩
  · push_neg at hmiss
    have hx : numOrNan (coordVal inputs sc.x) = true :=
      (coordVal_cases inputs hin sc.x).resolve_left hmiss.1
    have hy : numOrNan (coordVal inputs sc.y) = true :=
      (coordVal_cases inputs hin sc.y).resolve_left hmiss.2
    obtain ⟨s, hs⟩ := gridFoldM_isOk _ _ hx hy sc.grid sc.default
    exact ⟨_, by
      rw [if_neg (by intro h; exact absurd h (by simp [hmiss.1, hmiss.2])), hs]; rfl⟩

lemma scoreCompositeAvg_ok (sc : ScoringCfg) (inputs : Dict PyVal)
    (hin : ∀ kv ∈ inputs, numOrNan kv.2 = true) :
    ∃ out, scoreCompositeAvg sc inputs = Except.ok out := by
  unfold scoreCompositeAvg
  obtain ⟨st, hst⟩ := foldlM_ok_of_all
    (fun (acc : List ℚ × List String) subInd =>
      match subInd.k with
      | some k =>
          match dictGet? inputs k with
          | some v => do
              let s ← linInterp v subInd.breakpoints
              pure (acc.1 ++ [s], acc.2)
          | Option.none => pure (acc.1 ++ [0], acc.2 ++ ["Missing sub-indicator " ++ k])
      | Option.none => pure (acc.1 ++ [0], acc.2 ++ ["Missing sub-indicator None"]))
    sc.sub
    (by
      intro acc subInd _
      dsimp only
      cases hk : subInd.k with
      | none => exact ⟨_, rfl⟩
      | some k =>
          show ∃ b', (match dictGet? inputs k with
            | some v => do
                let s ← linInterp v subInd.breakpoints
                pure (acc.1 ++ [s], acc.2)
            | Option.none =>
                pure (acc.1 ++ [0], acc.2 ++ ["Missing sub-indicator " ++ k])
            : Except PyErr (List ℚ × List String)) = Except.ok b'
          cases hv : dictGet? inputs k with
          | none => exact ⟨_, rfl⟩
          | some v =>
              obtain ⟨kv, hm, hveq⟩ := dictGet?_mem inputs k v hv
              obtain ⟨s, hs⟩ := linInterp_ok v (by simpa [hveq] using hin kv hm)
                subInd.breakpoints
              exact ⟨_, by
                show (do
                  let s ← linInterp v subInd.breakpoints
                  pure (acc.1 ++ [s], acc.2) : Except PyErr (List ℚ × List String)) = _
                rw [hs]
                rfl⟩)
    ([], [])
  exact ⟨_, by rw [hst]; rfl⟩

lemma scoreTwoDimInvert_ok (sc : ScoringCfg) (inputs : Dict PyVal)
    (hin : ∀ kv ∈ inputs, numOrNan kv.2 = true) :
    ∃ out, scoreTwoDimInvert sc inputs = Except.ok out := by
  unfold scoreTwoDimInvert
  by_cases hmiss : coordVal inputs sc.x = PyVal.none ∨ coordVal inputs sc.y = PyVal.none
  · exact ⟨_, by rw [if_pos hmiss]; rfl⟩
  · push_neg at hmiss
    have hx := (coordVal_cases inputs hin sc.x).resolve_left hmiss.1
    have hy := (coordVal_cases inputs hin sc.y).resolve_left hmiss.2
    have hxs : ∃ xs, invertAxisX (coordVal inputs sc.x) sc.targetBeta = Except.ok xs := by
      cases hc : coordVal inputs sc.x <;> simp_all [numOrNan, invertAxisX]
    have hys : ∃ ys, invertAxisY (coordVal inputs sc.y) = Except.ok ys := by
      cases hc : coordVal inputs sc.y <;> simp_all [numOrNan, invertAxisY]
    obtain ⟨xs, hxs⟩ := hxs
    obtain ⟨ys, hys⟩ := hys
    exact ⟨_, by
      rw [if_neg (by intro h; exact absurd h (by simp [hmiss.1, hmiss.2])), hxs, hys]
      rfl⟩

lemma dispatchScore_ok (indicatorId : String) (sc : ScoringCfg) (q : ℚ)
    (inputs : Dict PyVal) (peers : Dict (List PyVal))
    (hin : ∀ kv ∈ inputs, numOrNan kv.2 = true)
    (hp : ∀ kl ∈ peers, kl.2 ≠ [] ∧ ∀ x ∈ kl.2, isNum x = true) :
    ∃ out, dispatchScore indicatorId sc (PyVal.num q) inputs peers = Except.ok out := by
  unfold dispatchScore
  by_cases h1 : sc.type = some "linear_thresholds"
  · rw [if_pos h1]
    obtain ⟨s, hs⟩ := linInterp_ok (PyVal.num q) rfl sc.breakpoints
    exact ⟨_, by rw [hs]; rfl⟩
  rw [if_neg h1]
  by_cases h2 : sc.type = some "peer_percentile"
  · rw [if_pos h2]
    exact scorePeerPercentile_ok indicatorId sc q peers hp
  rw [if_neg h2]
  by_cases h3 : sc.type = some "relative_to_peer"
  · rw [if_pos h3]
    exact scoreRelToPeer_ok sc q peers hp
  rw [if_neg h3]
  by_cases h4 : sc.type = some "two_dim"
  · rw [if_pos h4]
    exact scoreTwoDim_ok sc inputs hin
  rw [if_neg h4]
  by_cases h5 : sc.type = some "count_thresholds"
  · rw [if_pos h5]
    obtain ⟨s, hs⟩ := linInterp_ok (PyVal.num q) rfl sc.breakpoints
    exact ⟨_, by rw [hs]; rfl⟩
  rw [if_neg h5]
  by_cases h6 : sc.type = some "policy_phase"
  · rw [if_pos h6]
    exact ⟨_, rfl⟩
  rw [if_neg h6]
  by_cases h7 : sc.type = some "composite_avg"
  · rw [if_pos h7]
    exact scoreCompositeAvg_ok sc inputs hin
  rw [if_neg h7]
  by_cases h8 : sc.type = some "stage"
  · rw [if_pos h8]
    exact ⟨_, rfl⟩
  rw [if_neg h8]
  by_cases h9 : sc.type = some "categorical"
  · rw [if_pos h9]
    exact ⟨_, rfl⟩
  rw [if_neg h9]
  by_cases h10 : sc.type = some "relative_index"
  · rw [if_pos h10]
    cases hv : dictGet? inputs "relative_return_pct" with
    | none => exact ⟨_, rfl⟩
    | some v =>
        obtain ⟨kv, hm, hveq⟩ := dictGet?_mem inputs _ v hv
        obtain ⟨s, hs⟩ := linInterp_ok v (by simpa [hveq] using hin kv hm) sc.breakpoints
        exact ⟨_, by
          show (do
            let s ← linInterp v sc.breakpoints
            pure (s, [], []) : Except PyErr BranchOut) = _
          rw [hs]
          rfl⟩
  rw [if_neg h10]
  by_cases h11 : sc.type = some "two_dim_invert"
  · rw [if_pos h11]
    exact scoreTwoDimInvert_ok sc inputs hin
  rw [if_neg h11]
  exact ⟨_, rfl⟩

/-- C3 counterexample: an ill-typed raw value does NOT degrade to a default
score with a warning — a string raw value reaching `linear_thresholds` raises
`TypeError` at the first breakpoint comparison and the exception propagates
out of `score_indicator`. -/
theorem c3_counterexample :
    scoreIndicator
      { id := "i", scoring := { type := some "linear_thresholds",
                                breakpoints := [(0, 0), (10, 100)] } }
      [("i", PyVal.str "oops")] [] []
      = Except.error PyErr.typeError := by decide

/-- C3 (amended): `score_indicator` never raises provided every input value
is a number or NaN and every peer sample array is a nonempty list of plain
numbers; under those hypotheses every failure mode — missing value, missing
peer data, unknown scoring type — degrades to a numeric default score with a
warning.  An ill-typed raw value (e.g. a string) instead propagates a
`TypeError`. -/
theorem c3_score_indicator_total (ind : Indicator) (inputs : Dict PyVal)
    (peers : Dict (List PyVal)) (context : Dict PyVal)
    (hin : ∀ kv ∈ inputs, numOrNan kv.2 = true)
    (hp : ∀ kl ∈ peers, kl.2 ≠ [] ∧ ∀ x ∈ kl.2, isNum x = true) :
    ∃ r, scoreIndicator ind inputs peers context = Except.ok r := by
  unfold scoreIndicator
  by_cases hmiss : findRaw (fieldHints ind) inputs = PyVal.none
      ∨ findRaw (fieldHints ind) inputs = PyVal.nan
  · exact ⟨_, by rw [if_pos hmiss]⟩
  · push_neg at hmiss
    have hq : ∃ q, findRaw (fieldHints ind) inputs = PyVal.num q := by
      rcases findRaw_cases (fieldHints ind) inputs with h | ⟨kv, hm, hv⟩
      · exact absurd h hmiss.1
      · have := hin kv hm
        rw [hv] at this
        cases hfv : findRaw (fieldHints ind) inputs with
        | num q => exact ⟨q, rfl⟩
        | str s => rw [hfv] at this; simp [numOrNan] at this
        | none => exact absurd hfv hmiss.1
        | nan => exact absurd hfv hmiss.2
    obtain ⟨q, hq⟩ := hq
    obtain ⟨out, hout⟩ := dispatchScore_ok ind.id ind.scoring q inputs peers hin hp
    rw [if_neg (by simp [hmiss.1, hmiss.2]), hq, hout]
    exact ⟨_, rfl⟩

/-- C3 witness: the never-raise theorem at a concrete one-indicator call with
numeric inputs and a nonempty numeric peer array. -/
theorem c3_witness :
    (∀ kv ∈ [("i", PyVal.num 5)], numOrNan kv.2 = true)
    ∧ (∀ kl ∈ [("p", [PyVal.num 1, PyVal.num 2])], kl.2 ≠ [] ∧ ∀ x ∈ kl.2, isNum x = true)
    ∧ ∃ r, scoreIndicator
        { id := "i", scoring := { type := some "linear_thresholds",
                                  breakpoints := [(0, 0), (10, 100)] } }
        [("i", PyVal.num 5)] [("p", [PyVal.num 1, PyVal.num 2])] [] = Except.ok r :=
  ⟨by decide, by decide,
    c3_score_indicator_total _ _ _ [] (by decide) (by decide)⟩

/-! ## C6: config loading and structural invalidity -/

lemma weightOfCat_nil (c : Option String) : weightOfCat [] c = 0 := by
  cases c <;> rfl

/-- C6 counterexample: a document with NO `weights` mapping at all loads
without any exception — `load_config` defaults the missing key to an empty
dict, normalizes nothing (silently zeroing the indicator weights against the
absent category weights), marks the config normalized, and returns.  No
`ConfigError` is raised; no such exception type even exists in the module. -/
theorem c6_counterexample :
    normalizeConfig { indicators := some [{ id := "i", category := some "A", weight := 5 }] }
      = Except.ok { indicators := some [{ id := "i", category := some "A", weight := 0 }],
                    normalized := true } := by
  norm_num +decide [normalizeConfig, normalizeWeights, sumValues, pyAbs, rescaleIndicators,
    rescaleFun, indCats, firstSeenKeys, catWeightSum, weightOfCat, dictGetD, dictGet?]

/-- C6 (amended): config loading never fails when the `weights` mapping is
missing: the key defaults to an empty dict, every category weight reads as 0,
and no rescale divides by zero, so normalization returns successfully for
every indicator list.  (Only the underlying exceptions — `ZeroDivisionError`
from the weight arithmetic — can propagate out of `load_config`, and only
when a nonempty `weights` mapping is present; no `ConfigError` type exists.) -/
theorem c6_missing_weights_ok (cfg : Config) (h : cfg.weights = Option.none) :
    ∃ cfg', normalizeConfig cfg = Except.ok cfg' := by
  have h1 : normalizeWeights [] = Except.ok ([], true) := by
    unfold normalizeWeights
    rw [if_pos (by norm_num [sumValues, pyAbs]), if_pos rfl]
  have h2 : rescaleIndicators [] (cfg.indicators.getD [])
      = Except.ok ((cfg.indicators.getD []).map (rescaleFun [] (cfg.indicators.getD []))) := by
    unfold rescaleIndicators
    rw [if_neg ?hany]
    case hany =>
      intro hany
      obtain ⟨c, _, hcond⟩ := List.any_eq_true.mp hany
      rw [decide_eq_true_eq] at hcond
      rw [weightOfCat_nil, hcond.1] at hcond
      norm_num [pyAbs] at hcond
  exact ⟨_, by
    unfold normalizeConfig
    simp only [h, Option.getD_none, h1, exceptBind_ok, h2]
    rfl⟩

/-- C6 witness: the amended theorem at a concrete document with an indicator
list but no `weights` key. -/
theorem c6_witness :
    ({ indicators := some [{ id := "i", category := some "A", weight := 5 }] }
        : Config).weights = Option.none
    ∧ ∃ cfg', normalizeConfig
        { indicators := some [{ id := "i", category := some "A", weight := 5 }] }
        = Except.ok cfg' :=
  ⟨rfl, c6_missing_weights_ok _ rfl⟩

/-! ## Shared facts about weight normalization (C5, C7) -/

lemma firstSeenKeys_mem {α : Type} (key : α → Option String) :
    ∀ (l : List α) (seen : List (Option String)) (a : α), a ∈ l →
      key a ∈ firstSeenKeys key seen l ∨ key a ∈ seen
  | [], _, a, ha => absurd ha (List.not_mem_nil a)
  | x :: t, seen, a, ha => by
      simp only [firstSeenKeys]
      rcases List.mem_cons.mp ha with h | h
      · by_cases hx : key x ∈ seen
        · rw [if_pos hx, h]
          exact Or.inr hx
        · rw [if_neg hx, h]
          exact Or.inl (List.mem_cons_self _ _)
      · by_cases hx : key x ∈ seen
        · rw [if_pos hx]
          exact firstSeenKeys_mem key t seen a h
        · rw [if_neg hx]
          rcases firstSeenKeys_mem key t (key x :: seen) a h with h2 | h2
          · exact Or.inl (List.mem_cons_of_mem _ h2)
          · rcases List.mem_cons.mp h2 with h3 | h3
            · exact Or.inl (h3 ▸ List.mem_cons_self _ _)
            · exact Or.inr h3

lemma indCats_mem {inds : List Indicator} {i : Indicator} (hi : i ∈ inds) :
    i.category ∈ indCats inds :=
  (firstSeenKeys_mem Indicator.category inds [] i hi).resolve_right (by simp)

lemma rescaleFun_category (ws : Dict ℚ) (inds : List Indicator) (i : Indicator) :
    (rescaleFun ws inds i).category = i.category := by
  unfold rescaleFun
  split_ifs <;> rfl

lemma rescaleFun_eq (ws : Dict ℚ) (inds : List Indicator) (i : Indicator) :
    rescaleFun ws inds i
      = if pyAbs (catWeightSum inds i.category - weightOfCat ws i.category) > 1/2
        then { i with weight := i.weight / catWeightSum inds i.category
                * weightOfCat ws i.category }
        else i := rfl

lemma firstSeenKeys_map {α β : Type} (key : α → Option String) (key' : β → Option String)
    (f : β → α) (hk : ∀ b, key (f b) = key' b) :
    ∀ (l : List β) (seen : List (Option String)),
      firstSeenKeys key seen (l.map f) = firstSeenKeys key' seen l
  | [], _ => rfl
  | x :: t, seen => by
      simp only [List.map_cons, firstSeenKeys, hk x]
      by_cases hx : key' x ∈ seen
      · rw [if_pos hx, if_pos hx]
        exact firstSeenKeys_map key key' f hk t seen
      · rw [if_neg hx, if_neg hx]
        rw [firstSeenKeys_map key key' f hk t (key' x :: seen)]

lemma indCats_map_rescale (ws : Dict ℚ) (inds : List Indicator) :
    indCats (inds.map (rescaleFun ws inds)) = indCats inds :=
  firstSeenKeys_map _ _ _ (rescaleFun_category ws inds) inds []

lemma filter_map_rescale (ws : Dict ℚ) (inds : List Indicator) (c : Option String) :
    ∀ (l : List Indicator),
      (l.map (rescaleFun ws inds)).filter (fun i => i.category = c)
        = (l.filter (fun i => i.category = c)).map (rescaleFun ws inds)
  | [] => rfl
  | i :: t => by
      simp only [List.map_cons, List.filter_cons, rescaleFun_category]
      by_cases hc : i.category = c
      · simp [hc, filter_map_rescale ws inds c t]
      · simp [hc, filter_map_rescale ws inds c t]

lemma sum_div_mul (qs : List ℚ) (s e : ℚ) :
    (qs.map (fun w => w / s * e)).sum = qs.sum / s * e := by
  induction qs with
  | nil => simp
  | cons q t ih =>
      simp only [List.map_cons, List.sum_cons, ih]
      ring

lemma catWeightSum_map_rescale (ws : Dict ℚ) (inds : List Indicator) (c : Option String) :
    catWeightSum (inds.map (rescaleFun ws inds)) c
      = if pyAbs (catWeightSum inds c - weightOfCat ws c) > 1/2
        then catWeightSum inds c / catWeightSum inds c * weightOfCat ws c
        else catWeightSum inds c := by
  have hL : catWeightSum (inds.map (rescaleFun ws inds)) c
      = (((inds.filter (fun i => i.category = c)).map (rescaleFun ws inds)).map
          Indicator.weight).sum := by
    unfold catWeightSum
    rw [filter_map_rescale ws inds c inds]
  rw [hL, List.map_map]
  have hmem : ∀ i ∈ inds.filter (fun i => i.category = c), i.category = c := by
    intro i hi
    simpa using (List.mem_filter.mp hi).2
  by_cases hγ : pyAbs (catWeightSum inds c - weightOfCat ws c) > 1/2
  · rw [if_pos hγ]
    have hcong : ∀ i ∈ inds.filter (fun i => i.category = c),
        (Indicator.weight ∘ rescaleFun ws inds) i
          = (fun i : Indicator =>
              i.weight / catWeightSum inds c * weightOfCat ws c) i := by
      intro i hi
      have hci := hmem i hi
      show (rescaleFun ws inds i).weight
        = i.weight / catWeightSum inds c * weightOfCat ws c
      unfold rescaleFun
      rw [hci, if_pos hγ]
    rw [List.map_congr_left hcong,
        show ((inds.filter (fun i => i.category = c)).map
            (fun i : Indicator => i.weight / catWeightSum inds c * weightOfCat ws c))
          = (((inds.filter (fun i => i.category = c)).map Indicator.weight).map
              (fun w => w / catWeightSum inds c * weightOfCat ws c))
          from (List.map_map (fun w => w / catWeightSum inds c * weightOfCat ws c)
            Indicator.weight (inds.filter (fun i => i.category = c))).symm,
        sum_div_mul]
    rfl
  · rw [if_neg hγ]
    have hcong : ∀ i ∈ inds.filter (fun i => i.category = c),
        (Indicator.weight ∘ rescaleFun ws inds) i = Indicator.weight i := by
      intro i hi
      have hci := hmem i hi
      show (rescaleFun ws inds i).weight = i.weight
      unfold rescaleFun
      rw [hci, if_neg hγ]
    rw [List.map_congr_left hcong]
    rfl

lemma rescaleIndicators_ok_elim (ws : Dict ℚ) (inds inds' : List Indicator)
    (h : rescaleIndicators ws inds = Except.ok inds') :
    inds' = inds.map (rescaleFun ws inds)
    ∧ ∀ c ∈ indCats inds, ¬(catWeightSum inds c = 0
        ∧ pyAbs (catWeightSum inds c - weightOfCat ws c) > 1/2) := by
  unfold rescaleIndicators at h
  split at h
  · cases h
  case isFalse hb =>
    refine ⟨(Except.ok.inj h).symm, ?_⟩
    intro c hc hcond
    apply hb
    exact List.any_eq_true.mpr ⟨c, hc, by simp only [decide_eq_true_eq]; exact hcond⟩

lemma normalizeWeights_elim (ws ws' : Dict ℚ) (flag : Bool)
    (h : normalizeWeights ws = Except.ok (ws', flag)) :
    (pyAbs (sumValues ws - 100) ≤ 1/100 ∧ ws' = ws ∧ flag = false)
    ∨ (ws = [] ∧ ws' = [] ∧ flag = true)
    ∨ (pyAbs (sumValues ws - 100) > 1/100 ∧ sumValues ws ≠ 0
        ∧ ws' = ws.map (fun p => (p.1, p.2 / sumValues ws * 100)) ∧ flag = true) := by
  unfold normalizeWeights at h
  split at h
  case isTrue h1 =>
    split at h
    case isTrue h2 =>
      rw [Except.ok.injEq, Prod.mk.injEq] at h
      exact Or.inr (Or.inl ⟨h2, h.1.symm ▸ h2 ▸ rfl, h.2.symm⟩)
    case isFalse h2 =>
      split at h
      · cases h
      case isFalse h3 =>
        rw [Except.ok.injEq, Prod.mk.injEq] at h
        exact Or.inr (Or.inr ⟨h1, h3, h.1.symm, h.2.symm⟩)
  case isFalse h1 =>
    rw [Except.ok.injEq, Prod.mk.injEq] at h
    exact Or.inl ⟨not_lt.mp h1, h.1.symm, h.2.symm⟩

lemma sumValues_rescale (ws : Dict ℚ) (t : ℚ) :
    sumValues (ws.map fun p => (p.1, p.2 / t * 100)) = sumValues ws / t * 100 := by
  induction ws with
  | nil => simp [sumValues]
  | cons p rest ih =>
      simp only [sumValues, List.map_cons, List.sum_cons] at ih ⊢
      rw [ih]
      ring

lemma normalizeWeights_sum_le (ws ws' : Dict ℚ) (flag : Bool) (hne : ws ≠ [])
    (h : normalizeWeights ws = Except.ok (ws', flag)) :
    pyAbs (sumValues ws' - 100) ≤ 1/100 := by
  rcases normalizeWeights_elim ws ws' flag h with ⟨h1, hws, _⟩ | ⟨hnil, _, _⟩ |
      ⟨_, hT, hmap, _⟩
  · rw [hws]
    exact h1
  · exact absurd hnil hne
  · rw [hmap, sumValues_rescale, div_mul_eq_mul_div, mul_comm,
      mul_div_assoc, div_self hT, mul_one]
    norm_num [pyAbs]

lemma normalizeConfig_elim (cfg cfg' : Config)
    (h : normalizeConfig cfg = Except.ok cfg') :
    ∃ ws' flag inds',
      normalizeWeights (cfg.weights.getD []) = Except.ok (ws', flag)
      ∧ rescaleIndicators ws' (cfg.indicators.getD []) = Except.ok inds'
      ∧ cfg' = { cfg with
          weights := cfg.weights.map (fun _ => ws'),
          indicators := cfg.indicators.map (fun _ => inds'),
          normalized := flag } := by
  unfold normalizeConfig at h
  cases hnw : normalizeWeights (cfg.weights.getD []) with
  | error e =>
      rw [hnw] at h
      simp only [exceptBind_error] at h
      exact Except.noConfusion h
  | ok wf =>
      obtain ⟨ws', flag⟩ := wf
      rw [hnw] at h
      simp only [exceptBind_ok] at h
      cases hri : rescaleIndicators ws' (cfg.indicators.getD []) with
      | error e =>
          rw [hri] at h
          simp only [exceptBind_error] at h
          exact Except.noConfusion h
      | ok inds' =>
          rw [hri] at h
          simp only [exceptBind_ok, exceptPure_eq_ok, Except.ok.injEq] at h
          exact ⟨ws', flag, inds', rfl, hri, h.symm⟩

/-! ## C5: zero-weight categories in normalization and aggregation -/

lemma totalScoreOf_cons (w : Dict ℚ) (p : Option String × ℚ)
    (t : List (Option String × ℚ)) :
    totalScoreOf w (p :: t) = p.2 * (weightOfCat w p.1 / 100) + totalScoreOf w t := by
  simp [totalScoreOf]

lemma totalScoreOf_filter (w : Dict ℚ) (c : Option String) :
    ∀ cs : List (Option String × ℚ), (∀ p ∈ cs, p.1 = c → p.2 = 0) →
      totalScoreOf w cs = totalScoreOf w (cs.filter (fun p => ¬ p.1 = c))
  | [], _ => rfl
  | p :: t, h => by
      have ht := totalScoreOf_filter w c t
        (fun q hq hqc => h q (List.mem_cons_of_mem p hq) hqc)
      rw [List.filter_cons]
      by_cases hc : p.1 = c
      · rw [if_neg (by simp [hc]), totalScoreOf_cons, h p (List.mem_cons_self p t) hc,
          zero_mul, zero_add, ht]
      · rw [if_pos (by simp [hc]), totalScoreOf_cons, totalScoreOf_cons, ht]

/-- C5 counterexample: a category whose indicator weights sum to 0 but whose
configured category weight is far from 0 hits the unguarded division
`indicator['weight'] / total_cat_weight` and raises `ZeroDivisionError` —
there is no division-by-zero guard in `load_config`. -/
theorem c5_counterexample :
    normalizeConfig { weights := some [("A", 100)],
                      indicators := some [{ id := "i", category := some "A", weight := 0 }] }
      = Except.error PyErr.zeroDivisionError := by
  norm_num +decide [normalizeConfig, normalizeWeights, sumValues, pyAbs,
    rescaleIndicators, indCats, firstSeenKeys, catWeightSum, weightOfCat,
    dictGetD, dictGet?]

/-- C5 (amended): when normalization SUCCEEDS, a category whose indicator
weights sum to 0 does keep its member indicators unchanged (the rescale
branch was not taken for it, since taking it would have divided by zero and
raised), and downstream aggregation scores every zero-total-weight category 0
so that dropping those categories leaves the weighted total unchanged.  When
the configured category weight differs from the zero sum by more than 0.5,
however, normalization itself raises `ZeroDivisionError` instead. -/
theorem c5_zero_weight_category (cfg cfg' : Config) (c : Option String)
    (breakdown : List IndResult)
    (h : normalizeConfig cfg = Except.ok cfg')
    (hc : catWeightSum (cfg.indicators.getD []) c = 0)
    (hbw : ((breakdown.filter (fun i => i.category = c)).map IndResult.weight).sum = 0) :
    (cfg'.indicators.getD []).filter (fun i => i.category = c)
        = (cfg.indicators.getD []).filter (fun i => i.category = c)
    ∧ (∀ p ∈ categoryScorePairs breakdown, p.1 = c → p.2 = 0)
    ∧ (aggregateScores cfg' breakdown).2
        = totalScoreOf (cfg'.weights.getD [])
            ((categoryScorePairs breakdown).filter (fun p => ¬ p.1 = c)) := by
  obtain ⟨ws', flag, inds', hnw, hri, hcfg⟩ := normalizeConfig_elim cfg cfg' h
  obtain ⟨hinds', hnoerr⟩ := rescaleIndicators_ok_elim ws' _ inds' hri
  have hiD : cfg'.indicators.getD []
      = (cfg.indicators.getD []).map (rescaleFun ws' (cfg.indicators.getD [])) := by
    rw [hcfg]
    cases hci : cfg.indicators with
    | none => rfl
    | some l =>
        rw [hci] at hinds'
        simpa using hinds'
  have hpart1 : (cfg'.indicators.getD []).filter (fun i => i.category = c)
      = (cfg.indicators.getD []).filter (fun i => i.category = c) := by
    rw [hiD, filter_map_rescale]
    by_cases hex : ∃ i ∈ cfg.indicators.getD [], i.category = c
    · obtain ⟨i, hi, hic⟩ := hex
      have hγ : ¬ pyAbs (catWeightSum (cfg.indicators.getD []) c
          - weightOfCat ws' c) > 1/2 := by
        intro hγ
        exact hnoerr c (hic ▸ indCats_mem hi) ⟨hc, hγ⟩
      have hcong : ∀ j ∈ (cfg.indicators.getD []).filter (fun i => i.category = c),
          rescaleFun ws' (cfg.indicators.getD []) j = id j := by
        intro j hj
        have hjc : j.category = c := by simpa using (List.mem_filter.mp hj).2
        show rescaleFun ws' (cfg.indicators.getD []) j = j
        unfold rescaleFun
        rw [hjc, if_neg hγ]
      rw [List.map_congr_left hcong, List.map_id]
    · have h0 : (cfg.indicators.getD []).filter (fun i => i.category = c) = [] := by
        rw [List.filter_eq_nil]
        intro j hj hjc
        exact hex ⟨j, hj, by simpa using hjc⟩
      rw [h0]
      rfl
  have hpart2 : ∀ p ∈ categoryScorePairs breakdown, p.1 = c → p.2 = 0 := by
    intro p hp hpc
    unfold categoryScorePairs at hp
    obtain ⟨c', _, heq⟩ := List.mem_map.mp hp
    rw [← heq] at hpc ⊢
    have hpc' : c' = c := hpc
    subst hpc'
    show (if ((breakdown.filter (fun i => i.category = c')).map IndResult.weight).sum = 0
        then (0:ℚ)
        else ((breakdown.filter (fun i => i.category = c')).map
                (fun i => i.score * i.weight)).sum
              / ((breakdown.filter (fun i => i.category = c')).map IndResult.weight).sum)
      = 0
    rw [if_pos hbw]
  refine ⟨hpart1, hpart2, ?_⟩
  show totalScoreOf (cfg'.weights.getD []) (categoryScorePairs breakdown) = _
  exact totalScoreOf_filter (cfg'.weights.getD []) c (categoryScorePairs breakdown) hpart2

lemma c5eval_norm : normalizeConfig c5cfg = Except.ok c5cfg := by
  norm_num +decide [c5cfg, normalizeConfig, normalizeWeights, sumValues, pyAbs,
    rescaleIndicators, rescaleFun, indCats, firstSeenKeys, catWeightSum, weightOfCat,
    dictGetD, dictGet?]

lemma c5eval_catsum : catWeightSum (c5cfg.indicators.getD []) (some "B") = 0 := by
  norm_num +decide [c5cfg, catWeightSum]

lemma c5eval_bd :
    ((c5bd.filter (fun i => i.category = some "B")).map IndResult.weight).sum = 0 := by
  norm_num +decide [c5bd]

/-- C5 witness: the amended theorem at the concrete document `c5cfg` (which
normalizes to itself) and breakdown `c5bd`, with `c = "B"` the
zero-weight category. -/
theorem c5_witness :
    normalizeConfig c5cfg = Except.ok c5cfg
    ∧ catWeightSum (c5cfg.indicators.getD []) (some "B") = 0
    ∧ ((c5bd.filter (fun i => i.category = some "B")).map IndResult.weight).sum = 0
    ∧ ((c5cfg.indicators.getD []).filter (fun i => i.category = some "B")
          = (c5cfg.indicators.getD []).filter (fun i => i.category = some "B")
        ∧ (∀ p ∈ categoryScorePairs c5bd, p.1 = some "B" → p.2 = 0)
        ∧ (aggregateScores c5cfg c5bd).2
            = totalScoreOf (c5cfg.weights.getD [])
                ((categoryScorePairs c5bd).filter (fun p => ¬ p.1 = some "B"))) :=
  ⟨c5eval_norm, c5eval_catsum, c5eval_bd,
    c5_zero_weight_category c5cfg c5cfg (some "B") c5bd c5eval_norm c5eval_catsum c5eval_bd⟩

/-! ## C7: the weight invariants established by normalization -/

/-- C7: for every config carrying a nonempty `weights` mapping that
normalizes successfully, afterwards (1) the category weights sum to 100
within 0.01, (2) every category whose indicator weights do not sum to 0 has
them summing to its category weight within 0.5, and (3) normalizing again
succeeds and changes no weight value (neither the category weights nor any
indicator weight). -/
theorem c7_weight_invariants (cfg cfg' : Config) (ws : Dict ℚ)
    (hw : cfg.weights = some ws) (hne : ws ≠ [])
    (h : normalizeConfig cfg = Except.ok cfg') :
    pyAbs (sumValues (cfg'.weights.getD []) - 100) ≤ 1 / 100
    ∧ (∀ c : Option String, catWeightSum (cfg'.indicators.getD []) c ≠ 0 →
        pyAbs (catWeightSum (cfg'.indicators.getD []) c
          - weightOfCat (cfg'.weights.getD []) c) ≤ 1 / 2)
    ∧ ∃ cfg'', normalizeConfig cfg' = Except.ok cfg''
        ∧ cfg''.weights = cfg'.weights ∧ cfg''.indicators = cfg'.indicators := by
  obtain ⟨ws', flag, inds', hnw, hri, hcfg⟩ := normalizeConfig_elim cfg cfg' h
  obtain ⟨hinds', hnoerr⟩ := rescaleIndicators_ok_elim ws' _ inds' hri
  rw [hw, Option.getD_some] at hnw
  have hsum' : pyAbs (sumValues ws' - 100) ≤ 1/100 :=
    normalizeWeights_sum_le ws ws' flag hne hnw
  have hw' : cfg'.weights = some ws' := by simp [hcfg, hw]
  have hiD : cfg'.indicators.getD []
      = (cfg.indicators.getD []).map (rescaleFun ws' (cfg.indicators.getD [])) := by
    rw [hcfg]
    cases hci : cfg.indicators with
    | none => rfl
    | some l =>
        rw [hci] at hinds'
        simpa using hinds'
  refine ⟨?_, ?_, ?_⟩
  · rw [hw', Option.getD_some]
    exact hsum'
  · intro c hcs
    rw [hiD, catWeightSum_map_rescale] at hcs
    rw [hiD, hw', Option.getD_some, catWeightSum_map_rescale]
    by_cases hγ : pyAbs (catWeightSum (cfg.indicators.getD []) c - weightOfCat ws' c) > 1/2
    · rw [if_pos hγ] at hcs ⊢
      by_cases hs : catWeightSum (cfg.indicators.getD []) c = 0
      · rw [hs] at hcs
        norm_num at hcs
      · rw [div_self hs, one_mul, sub_self]
        norm_num [pyAbs]
    · rw [if_neg hγ] at hcs ⊢
      exact not_lt.mp hγ
  · have hnw2 : normalizeWeights ws' = Except.ok (ws', false) := by
      unfold normalizeWeights
      rw [if_neg (not_lt.mpr hsum')]
    have hwD' : cfg'.weights.getD [] = ws' := by
      rw [hw']
      rfl
    have hmapid : ((cfg.indicators.getD []).map
          (rescaleFun ws' (cfg.indicators.getD []))).map
        (rescaleFun ws' ((cfg.indicators.getD []).map
          (rescaleFun ws' (cfg.indicators.getD []))))
        = (cfg.indicators.getD []).map (rescaleFun ws' (cfg.indicators.getD [])) := by
      have hcong : ∀ j ∈ (cfg.indicators.getD []).map
            (rescaleFun ws' (cfg.indicators.getD [])),
          rescaleFun ws' ((cfg.indicators.getD []).map
            (rescaleFun ws' (cfg.indicators.getD []))) j = id j := by
        intro j hj
        obtain ⟨i, hi, heq⟩ := List.mem_map.mp hj
        have hjc : j.category = i.category := by
          rw [← heq]
          exact rescaleFun_category ws' (cfg.indicators.getD []) i
        show rescaleFun ws' ((cfg.indicators.getD []).map
          (rescaleFun ws' (cfg.indicators.getD []))) j = j
        rw [rescaleFun_eq, hjc, catWeightSum_map_rescale]
        by_cases hγ : pyAbs (catWeightSum (cfg.indicators.getD []) i.category
            - weightOfCat ws' i.category) > 1/2
        · have hs : catWeightSum (cfg.indicators.getD []) i.category ≠ 0 :=
            fun hs => hnoerr i.category (indCats_mem hi) ⟨hs, hγ⟩
          rw [if_pos hγ, div_self hs, one_mul, sub_self,
            if_neg (by norm_num [pyAbs] : ¬ pyAbs (0:ℚ) > 1/2)]
        · rw [if_neg hγ, if_neg hγ]
      rw [List.map_congr_left hcong, List.map_id]
    have hri2 : rescaleIndicators ws' ((cfg.indicators.getD []).map
          (rescaleFun ws' (cfg.indicators.getD [])))
        = Except.ok ((cfg.indicators.getD []).map
            (rescaleFun ws' (cfg.indicators.getD []))) := by
      unfold rescaleIndicators
      rw [if_neg ?hany, hmapid]
      case hany =>
        intro hany
        obtain ⟨c, hcmem, hcond⟩ := List.any_eq_true.mp hany
        rw [decide_eq_true_eq] at hcond
        rw [indCats_map_rescale] at hcmem
        rw [catWeightSum_map_rescale] at hcond
        by_cases hγ : pyAbs (catWeightSum (cfg.indicators.getD []) c
            - weightOfCat ws' c) > 1/2
        · rw [if_pos hγ] at hcond
          have hs : catWeightSum (cfg.indicators.getD []) c ≠ 0 :=
            fun hs => hnoerr c hcmem ⟨hs, hγ⟩
          rw [div_self hs, one_mul, sub_self] at hcond
          have h2 := hcond.2
          norm_num [pyAbs] at h2
        · rw [if_neg hγ] at hcond
          exact hγ hcond.2
    have hstep : normalizeConfig cfg' = Except.ok { cfg' with
        weights := cfg'.weights.map (fun _ => ws'),
        indicators := cfg'.indicators.map (fun _ => (cfg.indicators.getD []).map
          (rescaleFun ws' (cfg.indicators.getD []))),
        normalized := false } := by
      unfold normalizeConfig
      rw [hwD', hnw2]
      simp only [exceptBind_ok]
      rw [hiD, hri2]
      simp only [exceptBind_ok, exceptPure_eq_ok]
    refine ⟨_, hstep, ?_, ?_⟩
    · show cfg'.weights.map (fun _ => ws') = cfg'.weights
      rw [hw']
      rfl
    · show cfg'.indicators.map (fun _ => (cfg.indicators.getD []).map
          (rescaleFun ws' (cfg.indicators.getD []))) = cfg'.indicators
      rw [hcfg]
      cases hci : cfg.indicators with
      | none => rfl
      | some l =>
          rw [hci] at hinds'
          simp only [Option.getD_some] at hinds'
          simp only [Option.map_some', Option.some.injEq, Option.getD_some]
          exact hinds'.symm

lemma c7eval_norm : normalizeConfig c7cfg = Except.ok c7cfg2 := by
  norm_num +decide [c7cfg, c7cfg2, normalizeConfig, normalizeWeights, sumValues, pyAbs,
    rescaleIndicators, rescaleFun, indCats, firstSeenKeys, catWeightSum, weightOfCat,
    dictGetD, dictGet?]

/-- C7 witness: the invariants at the concrete document `c7cfg`, whose
weights sum to 50 and get rescaled to 100. -/
theorem c7_witness :
    c7cfg.weights = some [("A", (50:ℚ))]
    ∧ [("A", (50:ℚ))] ≠ []
    ∧ normalizeConfig c7cfg = Except.ok c7cfg2
    ∧ (pyAbs (sumValues (c7cfg2.weights.getD []) - 100) ≤ 1 / 100
      ∧ (∀ c : Option String, catWeightSum (c7cfg2.indicators.getD []) c ≠ 0 →
          pyAbs (catWeightSum (c7cfg2.indicators.getD []) c
            - weightOfCat (c7cfg2.weights.getD []) c) ≤ 1 / 2)
      ∧ ∃ cfg'', normalizeConfig c7cfg2 = Except.ok cfg''
          ∧ cfg''.weights = c7cfg2.weights ∧ cfg''.indicators = c7cfg2.indicators) :=
  ⟨rfl, by simp, c7eval_norm,
    c7_weight_invariants c7cfg c7cfg2 [("A", 50)] rfl (by simp) c7eval_norm⟩

/-! ## C4: determinism of `score_stock` -/

/-- C4 counterexample: the report's `as_of` field is the wall clock read at
report-assembly time (`datetime.now().isoformat()`), so two invocations on
identical configuration and inputs at different instants return reports that
are NOT identical in all fields — they differ in `as_of`. -/
theorem c4_counterexample :
    scoreStock {} [] [] [] [] "2024-01-01T00:00:00"
      ≠ scoreStock {} [] [] [] [] "2024-01-02T00:00:00" := by
  decide

/-- C4 (amended): `score_stock` is deterministic up to the `as_of` wall-clock
stamp: for every fixed configuration, inputs, peers, overrides and context,
two invocations return identical reports in every other field (the whole
computation depends only on the arguments; only the timestamp differs). -/
theorem c4_deterministic (cfg : Config) (inputs : Dict PyVal)
    (peers : Dict (List PyVal)) (overrides context : Dict PyVal)
    (now₁ now₂ : String) :
    (scoreStock cfg inputs peers overrides context now₁).map stripAsOf
      = (scoreStock cfg inputs peers overrides context now₂).map stripAsOf := by
  unfold scoreStock
  cases scoreStockCore cfg inputs peers overrides context with
  | error e => rfl
  | ok c => rfl

end StockScoring
